import Mathlib

/-!
Shallow embedding of the skiboss front-ends.

Two browser front-ends (`frontend/app.js`, the signal card, and
`frontendviejo/app.js`, the tabbed dashboard) are embedded as pure functions.

Conventions of the embedding:

* A finite JavaScript number is the rational value of a binary64; every
  arithmetic operation rounds its exact result to the nearest binary64, ties to
  even (`roundBinary64`), and overflows to an infinity.  The non-finite values
  are the extra constructors of `JSNum`.  The two zeros are identified.
* Text is `String`; the built-ins the handlers call (`toFixed`, `Math.round`,
  `toLowerCase`, `includes`, `sort`, `Set`) are embedded from their ECMAScript
  definitions.
* A handler that awaits `fetch` takes the outcome of the request as an argument
  and returns the new page state.
* Markup built by a template is kept as a structure of cells.  The `onclick`
  text of a close button is kept as text and read back by `readOnclick`.
-/

namespace Skiboss

/-! ## Numbers and their text -/

/-- A JavaScript number: a finite value, an infinity, or NaN. -/
inductive JSNum where
  | fin (q : ℚ)
  | posInf
  | negInf
  | nan
  deriving DecidableEq

/-- The integer nearest to `x`, the even one when two are equally near. -/
def roundHalfEven (x : ℚ) : ℤ :=
  if x - Int.floor x < 1 / 2 then Int.floor x
  else if 1 / 2 < x - Int.floor x then Int.floor x + 1
  else if Int.floor x % 2 = 0 then Int.floor x else Int.floor x + 1

/-- The binary exponent that fixes the spacing of binary64 values around a
magnitude `a`: `⌊log₂ a⌋`, and `-1022` in the subnormal range. -/
def binade (a : ℚ) : ℤ := max (Int.log 2 a) (-1022)

/-- Rounding of an exact result to binary64, to nearest with ties to even: the
result is a multiple of `2 ^ (binade - 52)` with a significand of at most 53
bits, and a magnitude of `2 ^ 1024` or more becomes an infinity. -/
def roundBinary64 (q : ℚ) : JSNum :=
  let ulp : ℚ := 2 ^ (binade |q| - 52)
  let r : ℚ := roundHalfEven (q / ulp) * ulp
  if 2 ^ 1024 ≤ |r| then (if 0 < q then JSNum.posInf else JSNum.negInf) else JSNum.fin r

/-- The sum `x + y` of two numbers (`+`). -/
def jsAdd : JSNum → JSNum → JSNum
  | JSNum.fin a, JSNum.fin b => roundBinary64 (a + b)
  | JSNum.nan, _ => JSNum.nan
  | _, JSNum.nan => JSNum.nan
  | JSNum.posInf, JSNum.negInf => JSNum.nan
  | JSNum.negInf, JSNum.posInf => JSNum.nan
  | JSNum.posInf, _ => JSNum.posInf
  | _, JSNum.posInf => JSNum.posInf
  | JSNum.negInf, _ => JSNum.negInf
  | _, JSNum.negInf => JSNum.negInf

/-- The quotient `a / b` of two finite numbers (`/`). -/
def jsDiv (a b : ℚ) : JSNum :=
  if b = 0 then
    if a = 0 then JSNum.nan else if 0 < a then JSNum.posInf else JSNum.negInf
  else roundBinary64 (a / b)

/-- The product `x * c` of a number and a finite number (`*`). -/
def jsMul (x : JSNum) (c : ℚ) : JSNum :=
  match x with
  | JSNum.fin q => roundBinary64 (q * c)
  | JSNum.posInf => if c = 0 then JSNum.nan else if 0 < c then JSNum.posInf else JSNum.negInf
  | JSNum.negInf => if c = 0 then JSNum.nan else if 0 < c then JSNum.negInf else JSNum.posInf
  | JSNum.nan => JSNum.nan

/-- ToBoolean on a number: zero and NaN are falsy. -/
def JSNum.truthy : JSNum → Bool
  | JSNum.fin q => decide (q ≠ 0)
  | JSNum.posInf => true
  | JSNum.negInf => true
  | JSNum.nan => false

/-- The expression `x || d` on numbers. -/
def jsOr (x d : JSNum) : JSNum := if x.truthy then x else d

/-- The character of a decimal digit. -/
def digitChar : Nat → Char
  | 0 => '0' | 1 => '1' | 2 => '2' | 3 => '3' | 4 => '4'
  | 5 => '5' | 6 => '6' | 7 => '7' | 8 => '8' | _ => '9'

/-- Decimal digits of `n`, most significant first; `fuel` bounds the recursion. -/
def decimalDigits : Nat → Nat → List Char
  | 0, _ => []
  | fuel + 1, n =>
    if n < 10 then [digitChar n] else decimalDigits fuel (n / 10) ++ [digitChar (n % 10)]

/-- The decimal representation of a natural number (`"0"` for zero). -/
def decimal (n : Nat) : List Char := decimalDigits (n + 1) n

/-- A digit list without its trailing zeros. -/
def stripTrailingZeros (ds : List Char) : List Char :=
  (ds.reverse.dropWhile (fun c => c == '0')).reverse

/-- The number of binary digits of `n`; `fuel` bounds the recursion. -/
def bitLength : Nat → Nat → Nat
  | 0, _ => 0
  | fuel + 1, n => if n = 0 then 0 else bitLength fuel (n / 2) + 1

/-- The binary64 value nearest to a natural number (ties to even), in integer
arithmetic: numbers of more than 53 bits keep their leading 53 bits, rounded.
It is `roundBinary64` on the naturals whose result is below `2 ^ 1024`
(`roundNatBinary64_agrees`). -/
def roundNatBinary64 (x : Nat) : Nat :=
  let b := bitLength x x
  if b ≤ 53 then x
  else
    let unit := 2 ^ (b - 53)
    let m := x / unit
    let rem := x % unit
    (if 2 * rem < unit then m else if unit < 2 * rem then m + 1
      else if m % 2 = 0 then m else m + 1) * unit

/-- The decimal number of `k` significant digits that reads back as `x`, if
there is one: of the two such numbers around `x` (`nd` is the number of digits
of `x`) the one that rounds to `x`, the nearer one when both do, the one with
the even last digit when they are equally near. -/
def readsBackAt (x nd k : Nat) : Option Nat :=
  let scale := 10 ^ (nd - k)
  let lo := x / scale * scale
  let hi := lo + scale
  let okLo := roundNatBinary64 lo == x
  let okHi := roundNatBinary64 hi == x
  if okLo && okHi then
    if x - lo < hi - x then some lo
    else if hi - x < x - lo then some hi
    else if (lo / scale) % 2 = 0 then some lo else some hi
  else if okLo then some lo
  else if okHi then some hi
  else none

/-- The decimal number with the fewest significant digits that reads back as
the binary64 integer `x`. -/
def shortestReadBack (x : Nat) : Nat :=
  (((List.range (decimal x).length).map (fun i => i + 1)).firstM
    (readsBackAt x (decimal x).length)).getD x

/-- Number::toString on a non-negative integer-valued binary64.  Below
`10 ^ 21` the text is the decimal digits.  From `10 ^ 21` on it is exponential
notation over the shortest digit string `s` with `s × 10 ^ (n - k)` reading
back as the number. -/
def natToString (x : Nat) : List Char :=
  let ds := decimal x
  if ds.length ≤ 21 then ds
  else
    let v := decimal (shortestReadBack x)
    let e := ['e', '+'] ++ decimal (v.length - 1)
    match stripTrailingZeros v with
    | [] => ds
    | [d] => d :: e
    | d :: rest => d :: '.' :: rest ++ e

/-- Number::toString on an integer-valued number. -/
def intToString (z : ℤ) : String :=
  String.mk (if z < 0 then '-' :: natToString z.natAbs else natToString z.natAbs)

/-- The method `Math.round` on a finite number: the integer `⌊x + 1/2⌋` (ties go up). -/
def mathRound (x : ℚ) : ℤ := Int.floor (x + 1 / 2)

/-- The text of `toFixed(f)` once the scaled integer `n` is known: the digits of
`n`, left-padded with zeros to `f + 1` characters, with the point before the
last `f` of them. -/
def fixedText (f n : Nat) : List Char :=
  let m := decimal n
  if f = 0 then m
  else
    let m := if m.length ≤ f then List.replicate (f + 1 - m.length) '0' ++ m else m
    let k := m.length
    m.take (k - f) ++ '.' :: m.drop (k - f)

/-- The scaled integer of `toFixed(f)` on a non-negative finite `a`: the integer
`n` for which `n / 10 ^ f - a` is as close to zero as possible, the larger one
when there are two. -/
def fixedScaled (f : Nat) (a : ℚ) : Nat := (Int.floor (a * 10 ^ f + 1 / 2)).toNat

/-- The method `Number.prototype.toFixed(f)`: a sign for a negative value, then
Number::toString of the magnitude from `10 ^ 21` on (a finite binary64 value of
that size is an integer) and the fixed-point text below it. -/
def toFixed (f : Nat) : JSNum → String
  | JSNum.nan => "NaN"
  | JSNum.posInf => "Infinity"
  | JSNum.negInf => "-Infinity"
  | JSNum.fin q =>
    let s := if q < 0 then ['-'] else []
    let a := |q|
    if 10 ^ 21 ≤ a then String.mk (s ++ natToString (Int.floor a).toNat)
    else String.mk (s ++ fixedText f (fixedScaled f a))

/-! ## Trading journal (`frontendviejo/app.js`, `loadTradingJournal`) -/

/-- A closed trade of `/history`; the journal reads only its realised result. -/
structure ClosedTrade where
  result_dollars : ℚ
  deriving DecidableEq

/-- The assumed initial capital, `let initialCapital = 10000`. -/
def initialCapital : ℚ := 10000

/-- The fold `history.reduce((sum, trade) => sum + trade.result_dollars, 0)`. -/
def totalProfit (history : List ClosedTrade) : JSNum :=
  history.foldl (fun sum trade => jsAdd sum (JSNum.fin trade.result_dollars)) (JSNum.fin 0)

/-- The sum `initialCapital + totalProfit`. -/
def finalCapital (history : List ClosedTrade) : JSNum :=
  jsAdd (JSNum.fin initialCapital) (totalProfit history)

/-- The expression `(history.filter(t => t.result_dollars > 0).length / history.length) * 100 || 0`. -/
def winRate (history : List ClosedTrade) : JSNum :=
  jsOr
    (jsMul
      (jsDiv ((history.filter (fun t => decide (t.result_dollars > 0))).length : ℚ)
        (history.length : ℚ))
      100)
    (JSNum.fin 0)

/-- The lines written to `#journal-metrics` for a fetched history. -/
def journalMetricsHtml (history : List ClosedTrade) : List String :=
  [ "<h3>Métricas Clave (USD):</h3>",
    "<p>Capital Actual: <strong>$" ++ toFixed 2 (finalCapital history) ++ "</strong></p>",
    "<p>Ganancias Netas: <strong>$" ++ toFixed 2 (totalProfit history) ++ "</strong></p>",
    "<p>% Trades Ganadores: <strong>" ++ toFixed 1 (winRate history) ++ "%</strong></p>",
    "<p>Total Operaciones Cerradas: " ++ String.mk (natToString history.length) ++ "</p>" ]

/-! ## Signal card (`frontend/app.js`) -/

/-- The JSON body of `GET /signal`, as `renderSignal` reads it.  Its numbers are
finite JSON numbers. -/
structure SignalData where
  signal : String
  confidence : ℚ
  stop_loss : ℚ
  take_profit : ℚ
  explanation : String
  deriving DecidableEq

/-- The text of `Math.round(x)` in a template: `Math.round` returns a value
that is not finite unchanged, and Number::toString names it. -/
def roundedText : JSNum → String
  | JSNum.fin p => intToString (mathRound p)
  | JSNum.posInf => "Infinity"
  | JSNum.negInf => "-Infinity"
  | JSNum.nan => "NaN"

/-- The interpolation `${Math.round(data.confidence * 100)}%`. -/
def renderConfidence (confidence : ℚ) : String :=
  roundedText (jsMul (JSNum.fin confidence) 100) ++ "%"

/-- The interpolation `${v === 0.0 ? 'N/A' : `$${v.toFixed(2)}`}` of a stop-loss
or take-profit level `v`. -/
def renderLevel (v : ℚ) : String :=
  if v = 0 then "N/A" else "$" ++ toFixed 2 (JSNum.fin v)

/-- The interpolated parts of the card that `renderSignal` writes to `#signal-result`. -/
structure SignalCard where
  signalClass : String
  heading : String
  confidence : String
  stopLoss : String
  takeProfit : String
  explanation : String
  deriving DecidableEq

/-- The value of a property read `table[key]` on an object literal: an own
string entry, or a member inherited from `Object.prototype` (a function or
object, hence truthy). -/
inductive JSProp where
  | str (s : String)
  | inherited (name : String)
  deriving DecidableEq

/-- The timeframe to interval table of `updateTradingViewChart`. -/
def tvIntervalTable : List (String × String) :=
  [("1m", "1"), ("5m", "5"), ("15m", "15"), ("30m", "30"),
   ("1h", "60"), ("4h", "240"), ("1d", "1D")]

/-- The property names every object literal inherits from `Object.prototype`. -/
def objectPrototypeKeys : List String :=
  ["constructor", "hasOwnProperty", "isPrototypeOf", "propertyIsEnumerable",
   "toLocaleString", "toString", "valueOf", "__proto__",
   "__defineGetter__", "__defineSetter__", "__lookupGetter__", "__lookupSetter__"]

/-- The method `String.prototype.toLowerCase`, on the ASCII letters.  The only
code points outside ASCII whose lower case falls inside ASCII are U+212A (to `k`)
and U+0130 (to `i` and U+0307); no key of `tvIntervalTable` or of
`objectPrototypeKeys` in lower case contains `k` or `i`, so the lookups below
agree with the full Unicode mapping. -/
def toLowerCase (s : String) : String := String.mk (s.toList.map Char.toLower)

/-- The property read `table[key]`: own entries first, then the prototype. -/
def getProp (table : List (String × String)) (key : String) : Option JSProp :=
  match table.lookup key with
  | some v => some (JSProp.str v)
  | none => if key ∈ objectPrototypeKeys then some (JSProp.inherited key) else none

/-- ToBoolean on a property value: only the empty string is falsy. -/
def JSProp.truthy : JSProp → Bool
  | JSProp.str s => decide (s ≠ "")
  | JSProp.inherited _ => true

/-- The expression `{...}[tf.toLowerCase()] || '60'`. -/
def tvInterval (tf : String) : JSProp :=
  match getProp tvIntervalTable (toLowerCase tf) with
  | some v => if v.truthy then v else JSProp.str "60"
  | none => JSProp.str "60"

/-- Whether the characters `p` stand at the head of `s`. -/
def startsWithChars : List Char → List Char → Bool
  | _, [] => true
  | [], _ :: _ => false
  | c :: cs, d :: ds => c == d && startsWithChars cs ds

/-- Whether the characters `sub` occur somewhere in `s`. -/
def includesChars : List Char → List Char → Bool
  | [], sub => sub.isEmpty
  | c :: cs, sub => startsWithChars (c :: cs) sub || includesChars cs sub

/-- The method `String.prototype.includes`. -/
def includes (s sub : String) : Bool := includesChars s.toList sub.toList

/-- The number of positions of `s` at which `sub` occurs. -/
def occurrences : List Char → List Char → Nat
  | [], sub => if sub.isEmpty then 1 else 0
  | c :: cs, sub => (if startsWithChars (c :: cs) sub then 1 else 0) + occurrences cs sub

/-- The expression `symbol.includes(':') ? symbol : `NASDAQ:${symbol}``. -/
def tvSymbol (symbol : String) : String :=
  if includes symbol ":" then symbol else "NASDAQ:" ++ symbol

/-- The parameters that `updateTradingViewChart` puts in the `src` of the chart
iframe (`&symbol=` and `&interval=`). -/
structure ChartSrc where
  symbol : String
  interval : JSProp
  deriving DecidableEq

/-- The function `updateTradingViewChart(symbol, tf)`. -/
def updateTradingViewChart (symbol tf : String) : ChartSrc :=
  { symbol := tvSymbol symbol, interval := tvInterval tf }

/-- The function `renderSignal(data, symbol, tf)`: the card and the chart source. -/
def renderSignal (data : SignalData) (symbol tf : String) : SignalCard × ChartSrc :=
  ({ signalClass := "signal-" ++ data.signal
     heading := "SEÑAL: " ++ data.signal
     confidence := renderConfidence data.confidence
     stopLoss := renderLevel data.stop_loss
     takeProfit := renderLevel data.take_profit
     explanation := data.explanation },
   updateTradingViewChart symbol tf)

/-- A text without its leading minus sign, if it has one. -/
def dropMinus : List Char → List Char
  | '-' :: rest => rest
  | other => other

/-- The shape `d+.dd` of an unsigned number written with exactly two decimal digits. -/
def isTwoDecimalBody (body : List Char) : Bool :=
  decide (4 ≤ body.length) && (body.take (body.length - 3)).all Char.isDigit
    && (body.drop (body.length - 3)).head? == some '.'
    && (body.drop (body.length - 2)).all Char.isDigit

/-- The shape `-?d+.dd` of a number written with exactly two decimal digits. -/
def isTwoDecimalText (cs : List Char) : Bool := isTwoDecimalBody (dropMinus cs)

/-- The shape of a currency string: `$` and then a number with exactly two
decimal digits. -/
def isTwoDecimalCurrency (s : String) : Bool :=
  match s.toList with
  | '$' :: rest => isTwoDecimalText rest
  | _ => false

/-! ## Dashboard (`frontendviejo/app.js`) -/

/-- The outcome of an awaited `fetch`: the promise rejects (no connection), or
a response arrives with a status and a JSON body. -/
inductive FetchResult (β : Type) where
  | failed (message : String)
  | response (status : Nat) (body : β)

/-- The getter `response.ok`: the status is in the range 200 to 299. -/
def statusOk (status : Nat) : Bool := decide (200 ≤ status) && decide (status ≤ 299)

/-- A signal of `/radar_signals`. -/
structure Signal where
  symbol : String
  asset_type : String
  signal : String
  entry_price : ℚ
  stop_loss : ℚ
  take_profit : ℚ
  rr_ratio : ℚ
  expected_roi : ℚ
  confidence : ℚ
  duration : String
  comment : String
  deriving DecidableEq

/-- The JSON body of `/radar_signals`. -/
structure RadarData where
  signals : List Signal
  total_signals : Nat

/-- One `<tr>` of the dashboard table: the signal whose fields fill the cells
and the three computed CSS classes. -/
structure DashboardRow where
  signal : Signal
  signalClass : String
  rrClass : String
  confidenceClass : String
  deriving DecidableEq

/-- One `<option>` of the asset-type filter. -/
structure FilterOption where
  value : String
  text : String
  deriving DecidableEq

/-- Insertion of `x` into a list ordered by `le`, before the first element it
may precede. -/
def sortInsert {α : Type} (le : α → α → Bool) (x : α) : List α → List α
  | [] => [x]
  | y :: ys => if le x y then x :: y :: ys else y :: sortInsert le x ys

/-- A stable sort: `Array.prototype.sort` is stable, so elements that compare
equal keep their order. -/
def stableSort {α : Type} (le : α → α → Bool) (l : List α) : List α :=
  l.foldr (sortInsert le) []

/-- The method `Array.prototype.sort(cmp)` for a comparator with finite results:
`a` may precede `b` when `cmp(a, b) ≤ 0`.  Only the sign of the comparator is
used, and the sign of a binary64 difference of two finite numbers is the sign
of their exact difference. -/
def jsSortBy {α : Type} (cmp : α → α → ℚ) (l : List α) : List α :=
  stableSort (fun a b => decide (cmp a b ≤ 0)) l

/-- The UTF-16 code units of a character. -/
def utf16 (c : Char) : List Nat :=
  if c.toNat < 65536 then [c.toNat]
  else [55296 + (c.toNat - 65536) / 1024, 56320 + (c.toNat - 65536) % 1024]

/-- The UTF-16 code units of a string. -/
def codeUnits (s : String) : List Nat := s.toList.flatMap utf16

/-- The method `Array.prototype.sort()` on strings: ascending in the order of
their UTF-16 code units. -/
def jsSortStrings (l : List String) : List String :=
  stableSort (fun a b => decide (codeUnits a ≤ codeUnits b)) l

/-- The spread of a `Set` built from a list: `[...new Set(l)]` keeps the first
occurrence of each value, in insertion order. -/
def setValues (l : List String) : List String :=
  l.foldl (fun acc x => if x ∈ acc then acc else acc ++ [x]) []

/-- The row that `renderDashboardTable` builds for one signal. -/
def renderDashboardRow (signal : Signal) : DashboardRow :=
  { signal := signal
    signalClass := if signal.signal = "LONG" then "signal-long" else "signal-short"
    rrClass := if signal.rr_ratio ≥ 2 then "rr-good" else "rr-bad"
    confidenceClass := if signal.confidence > 90 then "confidence-high" else "" }

/-- The function `renderDashboardTable(signals)`: `signals.map(...)`. -/
def renderDashboardTable (signals : List Signal) : List DashboardRow :=
  signals.map renderDashboardRow

/-- The array `[...new Set(signals.map(s => s.asset_type))].sort()`. -/
def assetTypes (signals : List Signal) : List String :=
  jsSortStrings (setValues (signals.map (fun s => s.asset_type)))

/-- The function `populateAssetFilter(signals)`: the fixed option, then one
option per asset type. -/
def populateAssetFilter (signals : List Signal) : List FilterOption :=
  { value := "ALL", text := "Tipo: Todos" } ::
    (assetTypes signals).map (fun type => { value := type, text := type })

/-! ## Active trades and closing (`frontendviejo/app.js`) -/

/-- The advisory object embedded in an open trade. -/
structure DrlAdvice where
  action : String
  reason : String
  deriving DecidableEq

/-- An open trade of `/active_trades`. -/
structure Trade where
  id : String
  symbol : String
  entry_price : ℚ
  stop_loss : ℚ
  take_profit : ℚ
  open_time : String
  drl_advice : DrlAdvice
  deriving DecidableEq

/-- The arguments of a call `closeTradeModal(tradeId, symbol, resultDollars, resultPercent)`. -/
structure CloseArgs where
  tradeId : String
  symbol : String
  resultDollars : JSNum
  resultPercent : JSNum
  deriving DecidableEq

/-- One `<tr>` of the active-trades table: the values shown in its cells and the
source text of the `onclick` attribute of its close button. -/
structure ActiveRow where
  symbol : String
  entry_price : ℚ
  currentPrice : JSNum
  pnlPercent : ℚ
  pnlDollars : ℚ
  stop_loss : ℚ
  take_profit : ℚ
  open_time : String
  advice : DrlAdvice
  closeOnclick : String
  deriving DecidableEq

/-- The simulated constant `const pnlDollars = 150.00`. -/
def pnlDollars : ℚ := 150

/-- The simulated constant `const pnlPercent = 1.5`. -/
def pnlPercent : ℚ := 3 / 2

/-- The row that `loadActiveTrades` builds for one trade.  The `onclick` text is
`closeTradeModal('${trade.id}', '${trade.symbol}', ${pnlDollars}, ${pnlPercent})`,
in which the two constants are interpolated as `150` and `1.5`. -/
def renderActiveRow (trade : Trade) : ActiveRow :=
  { symbol := trade.symbol
    entry_price := trade.entry_price
    currentPrice := jsAdd (JSNum.fin trade.entry_price) (jsDiv pnlDollars 10)
    pnlPercent := pnlPercent
    pnlDollars := pnlDollars
    stop_loss := trade.stop_loss
    take_profit := trade.take_profit
    open_time := trade.open_time
    advice := trade.drl_advice
    closeOnclick :=
      "closeTradeModal('" ++ trade.id ++ "', '" ++ trade.symbol ++ "', 150, 1.5)" }

/-- The content of `#active-trades-body`.  `unmodelled` stands for markup whose
interpolated strings contain `<` or `"`, which the HTML parser does not read as
one row per trade. -/
inductive ActiveBody where
  | untouched
  | noTrades
  | rows (rs : List ActiveRow)
  | unmodelled
  deriving DecidableEq

/-- Whether a string can be interpolated into the row markup without changing
its structure: it contains neither `<` nor `"`. -/
def markupSafe (s : String) : Bool :=
  s.toList.all (fun c => !(c == '<' || c == '"'))

/-- Whether the strings of a trade that are interpolated into its row leave the
structure of the row markup intact. -/
def rowMarkupSafe (trade : Trade) : Bool :=
  markupSafe trade.id && markupSafe trade.symbol
    && markupSafe trade.drl_advice.action && markupSafe trade.drl_advice.reason

/-- The apostrophe, which delimits the string literals of the `onclick` text. -/
def apostrophe : Char := Char.ofNat 39

/-- The characters that are read back unchanged from a string literal in an
`onclick` attribute: anything but the two quotes, the backslash, `&`, `<`, the
line breaks and U+0000. -/
def isPlainChar (c : Char) : Bool :=
  !(c == apostrophe || c == '"' || c == '\\' || c == '&' || c == '<'
    || c == '\n' || c == '\r' || c == Char.ofNat 0)

/-- Whether a string consists of plain characters. -/
def plainText (s : String) : Bool := s.toList.all isPlainChar

/-- The outcome of reading the body of a single-quoted string literal. -/
inductive LiteralRead where
  | closed (value rest : List Char)
  | unterminated
  | escape
  deriving DecidableEq

/-- Reading of a single-quoted string literal after its opening quote, up to
the closing quote.  A line break or the end of the text before the closing
quote is a syntax error; a backslash starts an escape sequence, which is not
modelled. -/
def readLiteral : List Char → LiteralRead
  | [] => LiteralRead.unterminated
  | c :: rest =>
    if c = apostrophe then LiteralRead.closed [] rest
    else if c = '\\' then LiteralRead.escape
    else if c = '\n' ∨ c = '\r' then LiteralRead.unterminated
    else
      match readLiteral rest with
      | LiteralRead.closed value rest => LiteralRead.closed (c :: value) rest
      | other => other

/-- The text that is left after the expected characters, if they are there. -/
def dropExpected : List Char → List Char → Option (List Char)
  | [], s => some s
  | _ :: _, [] => none
  | e :: es, c :: cs => if e = c then dropExpected es cs else none

/-- The number written by a string of decimal digits. -/
def digitsValue (ds : List Char) : Nat :=
  ds.foldl (fun n c => 10 * n + (c.toNat - 48)) 0

/-- Reading of a decimal literal `digits` or `digits.digits` of at most 20
digits without a leading zero: the digits as one natural number, the number of
digits after the point, and the rest of the text. -/
def readNumber (s : List Char) : Option ((Nat × Nat) × List Char) :=
  match s.span Char.isDigit with
  | (whole, rest) =>
    if whole = [] ∨ (whole.head? = some '0' ∧ 1 < whole.length) then none
    else
      match rest with
      | '.' :: rest =>
        match rest.span Char.isDigit with
        | (frac, rest) =>
          if frac = [] ∨ 20 < whole.length + frac.length then none
          else some ((digitsValue (whole ++ frac), frac.length), rest)
      | _ => if 20 < whole.length then none else some ((digitsValue whole, 0), rest)

/-- The value of a decimal literal: its mathematical value rounded to binary64. -/
def literalValue (digits : Nat × Nat) : JSNum :=
  roundBinary64 ((digits.1 : ℚ) / 10 ^ digits.2)

/-- Reading of `, number, number)` at the end of the call. -/
def readNumberArgs (s : List Char) : Option ((Nat × Nat) × (Nat × Nat)) :=
  match dropExpected [',', ' '] s with
  | none => none
  | some s =>
    match readNumber s with
    | none => none
    | some (first, s) =>
      match dropExpected [',', ' '] s with
      | none => none
      | some s =>
        match readNumber s with
        | none => none
        | some (second, s) => if s = [')'] then some (first, second) else none

/-- What the browser makes of the source text of an `onclick` attribute: a call
of `closeTradeModal` with four literal arguments, a text that is not a program
(no handler is installed and a click does nothing), or a text outside the
fragment read here. -/
inductive Handler where
  | call (args : CloseArgs)
  | syntaxError
  | unmodelled
  deriving DecidableEq

/-- Reading of a quoted string argument: the opening quote, the literal, and a
check that no second literal follows it directly (two adjacent literals are a
syntax error whatever comes after them). -/
def readStringArg (s : List Char) : Option (Option (List Char × List Char)) :=
  match s with
  | [] => none
  | c :: rest =>
    if c = apostrophe then
      match readLiteral rest with
      | LiteralRead.closed value rest =>
        if rest.head? = some apostrophe then some none else some (some (value, rest))
      | LiteralRead.unterminated => some none
      | LiteralRead.escape => none
    else none

/-- Reading of the `onclick` text of a close button.  The attribute value is the
interpolated text itself when it contains no `"`, `&`, carriage return or
U+0000; it is then read as `closeTradeModal('...', '...', number, number)`.
In `readStringArg` the result `some none` is a syntax error and `none` a text
outside the fragment. -/
def readOnclick (src : String) : Handler :=
  if src.toList.all (fun c => !(c == '"' || c == '&' || c == '\r' || c == Char.ofNat 0)) then
    match dropExpected "closeTradeModal(".toList src.toList with
    | none => Handler.unmodelled
    | some s =>
      match readStringArg s with
      | none => Handler.unmodelled
      | some none => Handler.syntaxError
      | some (some (tradeId, s)) =>
        match dropExpected [',', ' '] s with
        | none => Handler.unmodelled
        | some s =>
          match readStringArg s with
          | none => Handler.unmodelled
          | some none => Handler.syntaxError
          | some (some (symbol, s)) =>
            match readNumberArgs s with
            | none => Handler.unmodelled
            | some (dollars, percent) =>
              Handler.call
                { tradeId := String.mk tradeId
                  symbol := String.mk symbol
                  resultDollars := literalValue dollars
                  resultPercent := literalValue percent }
  else Handler.unmodelled

/-- The object `closeData` that `closeTradeModal` builds. -/
structure CloseData where
  trade_id : String
  close_price : JSNum
  close_time : String
  close_comment : Option String
  result_dollars : JSNum
  result_percent : JSNum
  deriving DecidableEq

/-- A request sent to the backend by the close flow. -/
inductive Request where
  | postCloseTrade (authorization : Option String) (payload : CloseData)
  deriving DecidableEq

/-- Modelled from the spec: `closeTradeAPI` is called by `closeTradeModal` but
defined in neither source file; by sections 4.4 and 6 of the specification it
POSTs the trade-close payload to the close-trade endpoint with the Basic-Auth
header. -/
def closeTradeAPI (authHeader : Option String) (closeData : CloseData) : List Request :=
  [Request.postCloseTrade authHeader closeData]

/-- The function `closeTradeModal(tradeId, symbol, resultDollars, resultPercent)`.
The two `prompt` answers are arguments (`none` when the prompt is cancelled), as
are the clock reading `new Date().toISOString()` and the built-in `parseFloat`.
The result is the list of requests sent. -/
def closeTradeModal (authHeader : Option String) (parseFloat : String → JSNum) (now : String)
    (args : CloseArgs) (closePrice comment : Option String) : List Request :=
  match closePrice with
  | none => []
  | some price =>
    if price ≠ "" then
      closeTradeAPI authHeader
        { trade_id := args.tradeId
          close_price := parseFloat price
          close_time := now
          close_comment := comment
          result_dollars := args.resultDollars
          result_percent := args.resultPercent }
    else []

/-- A click on the close button of a row: the handler read from the `onclick`
text is run.  The result is the list of requests sent, or `none` when the text
is outside the fragment that `readOnclick` reads. -/
def clickClose (authHeader : Option String) (parseFloat : String → JSNum) (now : String)
    (row : ActiveRow) (closePrice comment : Option String) : Option (List Request) :=
  match readOnclick row.closeOnclick with
  | Handler.call args => some (closeTradeModal authHeader parseFloat now args closePrice comment)
  | Handler.syntaxError => some []
  | Handler.unmodelled => none

/-! ## Page state and the fetching handlers (`frontendviejo/app.js`) -/

/-- The parts of the page and of the module state that the handlers write. -/
structure Page where
  body : Option String
  dashboardTimeframe : String
  allSignals : List Signal
  dashboardStatus : String
  dashboardRows : List DashboardRow
  assetFilter : List FilterOption
  currentTrades : List Trade
  activeStatus : String
  activeBody : ActiveBody
  journalMetrics : List String
  alerts : List String

/-- The markup that replaces `document.body` on a 401. -/
def deniedHtml : String :=
  "<h1>Acceso Denegado. Credenciales Inválidas. Recargue la página.</h1>"

/-- The function `loadDashboard()`, given the outcome of its fetch of `/radar_signals`. -/
def loadDashboard (page : Page) (result : FetchResult RadarData) : Page :=
  let page := { page with
    dashboardStatus := "Analizando señales para " ++ page.dashboardTimeframe ++ "..." }
  match result with
  | FetchResult.failed message =>
    { page with dashboardStatus := "❌ Error: " ++ message ++ ". Verifica API y cerebro." }
  | FetchResult.response status data =>
    if status = 401 then { page with body := some deniedHtml }
    else if !statusOk status then
      { page with
        dashboardStatus := "❌ Error: Fallo en la conexión DRL Radar.. Verifica API y cerebro." }
    else
      let sorted := jsSortBy (fun a b => b.confidence - a.confidence) data.signals
      { page with
        allSignals := sorted
        dashboardRows := renderDashboardTable sorted
        dashboardStatus :=
          "✅ Encontradas " ++ String.mk (natToString data.total_signals) ++ " oportunidades."
        assetFilter := populateAssetFilter sorted }

/-- The function `loadActiveTrades()`, given the outcome of its fetch of `/active_trades`. -/
def loadActiveTrades (page : Page) (result : FetchResult (List Trade)) : Page :=
  let page := { page with activeStatus := "Actualizando trades..." }
  match result with
  | FetchResult.failed message => { page with activeStatus := "❌ Error: " ++ message }
  | FetchResult.response status trades =>
    if !statusOk status then
      { page with activeStatus := "❌ Error: Fallo al obtener trades activos." }
    else if trades.length = 0 then
      { page with
        currentTrades := trades
        activeBody := ActiveBody.noTrades
        activeStatus := "0 Operaciones Activas." }
    else
      { page with
        currentTrades := trades
        activeBody :=
          if trades.all rowMarkupSafe then ActiveBody.rows (trades.map renderActiveRow)
          else ActiveBody.unmodelled
        activeStatus := String.mk (natToString trades.length) ++ " Operaciones Activas." }

/-- The function `loadTradingJournal()`, given the outcome of its fetch of `/history`. -/
def loadTradingJournal (page : Page) (result : FetchResult (List ClosedTrade)) : Page :=
  match result with
  | FetchResult.failed message => { page with journalMetrics := ["❌ Error: " ++ message] }
  | FetchResult.response status history =>
    if !statusOk status then
      { page with journalMetrics := ["❌ Error: Fallo al obtener historial."] }
    else { page with journalMetrics := journalMetricsHtml history }

/-- The function `confirmAndOpenTrade(tradeData)`, given the outcome of its POST
to `/active_trades/open` and of the two refreshes it starts on success. -/
def confirmAndOpenTrade (page : Page) (symbol : String) (result : FetchResult Unit)
    (radar : FetchResult RadarData) (active : FetchResult (List Trade)) : Page :=
  match result with
  | FetchResult.failed message =>
    { page with alerts := page.alerts ++ ["❌ Fallo al registrar trade: " ++ message] }
  | FetchResult.response status _ =>
    if !statusOk status then
      { page with alerts := page.alerts ++ ["❌ Fallo al registrar trade: Error al abrir el trade."] }
    else
      let page := { page with
        alerts := page.alerts ++ ["✅ Operación " ++ symbol ++ " registrada en Entradas Activas."] }
      loadActiveTrades (loadDashboard page radar) active

/-! ## Concrete values used to instantiate the theorems -/

/-- A freshly loaded page: nothing fetched yet. -/
def initialPage : Page :=
  { body := none
    dashboardTimeframe := "1h"
    allSignals := []
    dashboardStatus := ""
    dashboardRows := []
    assetFilter := []
    currentTrades := []
    activeStatus := ""
    activeBody := ActiveBody.untouched
    journalMetrics := []
    alerts := [] }

/-- A radar response with two signals, the less confident one first. -/
def exampleRadar : RadarData :=
  { signals :=
      [ { symbol := "SPY", asset_type := "ETF", signal := "LONG", entry_price := 500,
          stop_loss := 490, take_profit := 520, rr_ratio := 2, expected_roi := 4,
          confidence := 70, duration := "2d", comment := "" },
        { symbol := "BTCUSDT", asset_type := "CRYPTO", signal := "SHORT", entry_price := 60000,
          stop_loss := 61000, take_profit := 57000, rr_ratio := 3, expected_roi := 5,
          confidence := 95, duration := "1d", comment := "" } ]
    total_signals := 2 }

/-- An open trade. -/
def exampleTrade : Trade :=
  { id := "7", symbol := "SPY", entry_price := 500, stop_loss := 490, take_profit := 520
    open_time := "2024-01-02T10:00:00Z"
    drl_advice := { action := "HOLD", reason := "trend intact" } }

/-- An open trade whose id ends in an apostrophe. -/
def quotedIdTrade : Trade := { exampleTrade with id := "7'" }

/-- A history of 80 closed trades, 23 of them winners. -/
def history23of80 : List ClosedTrade :=
  List.replicate 23 { result_dollars := 1 } ++ List.replicate 57 { result_dollars := -1 }

/-- The binary64 value nearest to 0.8734. -/
def confidence08734 : ℚ := 3933443914545391 / 2 ^ 52

/-- The binary64 value written `0.6749999999999999`. -/
def confidenceBelow0675 : ℚ := 6079859496950169 / 2 ^ 53

/-! ## Lemmas on the number text -/

theorem decimalDigits_fuel (f₁ : Nat) :
    ∀ (f₂ n : Nat), n < f₁ → n < f₂ → decimalDigits f₁ n = decimalDigits f₂ n := by
  induction f₁ with
  | zero => intro f₂ n h; omega
  | succ f₁ ih =>
    intro f₂ n h₁ h₂
    cases f₂ with
    | zero => omega
    | succ f₂ =>
      unfold decimalDigits
      by_cases hn : n < 10
      · simp [hn]
      · simp only [hn, if_false]
        rw [ih f₂ (n / 10) (by omega) (by omega)]

theorem decimal_of_lt {n : Nat} (h : n < 10) : decimal n = [digitChar n] := by
  simp [decimal, decimalDigits, h]

theorem decimal_of_ge {n : Nat} (h : 10 ≤ n) :
    decimal n = decimal (n / 10) ++ [digitChar (n % 10)] := by
  have hn : ¬ n < 10 := by omega
  show decimalDigits (n + 1) n = decimalDigits (n / 10 + 1) (n / 10) ++ [digitChar (n % 10)]
  rw [decimalDigits, if_neg hn,
    decimalDigits_fuel n (n / 10 + 1) (n / 10) (by omega) (by omega)]

theorem decimal_length_pos (n : Nat) : 0 < (decimal n).length := by
  by_cases h : n < 10
  · simp [decimal_of_lt h]
  · simp [decimal_of_ge (Nat.le_of_not_lt h)]

theorem decimal_length_le (k : Nat) : ∀ n : Nat, n < 10 ^ (k + 1) → (decimal n).length ≤ k + 1 := by
  induction k with
  | zero => intro n h; simp [decimal_of_lt (show n < 10 by simpa using h)]
  | succ k ih =>
    intro n h
    by_cases hn : n < 10
    · simp [decimal_of_lt hn]
    · rw [decimal_of_ge (Nat.le_of_not_lt hn)]
      have : n / 10 < 10 ^ (k + 1) := by
        rw [Nat.div_lt_iff_lt_mul (by norm_num)]
        calc n < 10 ^ (k + 1 + 1) := h
          _ = 10 ^ (k + 1) * 10 := by ring
      have := ih (n / 10) this
      simp only [List.length_append, List.length_singleton]
      omega

theorem natToString_of_lt {n : Nat} (h : n < 10 ^ 21) : natToString n = decimal n := by
  have := decimal_length_le 20 n h
  simp [natToString, this]

theorem digitChar_isDigit (d : Nat) : (digitChar d).isDigit = true := by
  unfold digitChar
  split <;> decide

theorem decimal_all_isDigit (n : Nat) : (decimal n).all Char.isDigit = true := by
  induction n using Nat.strong_induction_on with
  | _ n ih =>
    by_cases h : n < 10
    · simp [decimal_of_lt h, digitChar_isDigit]
    · rw [decimal_of_ge (Nat.le_of_not_lt h), List.all_append, ih (n / 10) (by omega)]
      simp [digitChar_isDigit]

theorem fixedText_two (n : Nat) :
    fixedText 2 n = decimal (n / 100) ++ ['.', digitChar (n / 10 % 10), digitChar (n % 10)] := by
  by_cases h1 : n < 10
  · have h0 : n / 100 = 0 := by omega
    have h2 : n / 10 % 10 = 0 := by omega
    have h3 : n % 10 = n := by omega
    simp [fixedText, decimal_of_lt h1, h0, h2, h3, decimal_of_lt (show 0 < 10 by norm_num),
      digitChar, List.replicate]
  · by_cases h2 : n < 100
    · have h0 : n / 100 = 0 := by omega
      have h3 : n / 10 % 10 = n / 10 := by omega
      simp [fixedText, decimal_of_ge (Nat.le_of_not_lt h1),
        decimal_of_lt (show n / 10 < 10 by omega), h0, h3,
        decimal_of_lt (show 0 < 10 by norm_num), digitChar, List.replicate]
    · have h10 : 10 ≤ n / 10 := by omega
      have hdiv : n / 10 / 10 = n / 100 := by omega
      have hpos := decimal_length_pos (n / 100)
      have hlen : ¬ ((decimal (n / 100)).length + 1 + 1 ≤ 2) := by omega
      simp [fixedText, decimal_of_ge (Nat.le_of_not_lt h1), decimal_of_ge h10, hdiv, hlen]

theorem fixedScaled_nearest (f : Nat) {a : ℚ} (ha : 0 ≤ a) :
    |((fixedScaled f a : ℕ) : ℚ) / 10 ^ f - a| ≤ 1 / (2 * 10 ^ f) := by
  have hpow : (0 : ℚ) < 10 ^ f := by positivity
  have hnn : 0 ≤ Int.floor (a * 10 ^ f + 1 / 2) :=
    Int.floor_nonneg.2 (by positivity)
  have hcast : ((fixedScaled f a : ℕ) : ℚ) = ((Int.floor (a * 10 ^ f + 1 / 2) : ℤ) : ℚ) := by
    unfold fixedScaled
    rw [← Int.cast_natCast, Int.toNat_of_nonneg hnn]
  have hle := Int.floor_le (a * 10 ^ f + 1 / 2)
  have hlt := Int.lt_floor_add_one (a * 10 ^ f + 1 / 2)
  rw [hcast, abs_le]
  constructor
  · rw [le_sub_iff_add_le, le_div_iff₀ hpow]
    have : (-(1 / (2 * 10 ^ f)) + a) * 10 ^ f = a * 10 ^ f - 1 / 2 := by
      field_simp
      ring
    rw [this]
    linarith
  · rw [sub_le_iff_le_add, div_le_iff₀ hpow]
    have : (1 / (2 * 10 ^ f) + a) * 10 ^ f = a * 10 ^ f + 1 / 2 := by
      field_simp
      ring
    rw [this]
    exact hle

theorem mathRound_nearest (x : ℚ) (z : ℤ) : |((mathRound x : ℤ) : ℚ) - x| ≤ |(z : ℚ) - x| := by
  have hle := Int.floor_le (x + 1 / 2)
  have hlt := Int.lt_floor_add_one (x + 1 / 2)
  have hr : |((mathRound x : ℤ) : ℚ) - x| ≤ 1 / 2 := by
    rw [abs_le]
    unfold mathRound
    constructor <;> linarith
  rcases lt_trichotomy z (mathRound x) with h | h | h
  · have h1 : z + 1 ≤ mathRound x := h
    have h2 : ((z + 1 : ℤ) : ℚ) ≤ ((mathRound x : ℤ) : ℚ) := by exact_mod_cast h1
    have h3 : (1 : ℚ) / 2 ≤ |(z : ℚ) - x| := by
      rw [le_abs]
      right
      push_cast at h2
      unfold mathRound at h2
      linarith
    linarith
  · rw [h]
  · have h1 : mathRound x + 1 ≤ z := h
    have h2 : ((mathRound x + 1 : ℤ) : ℚ) ≤ (z : ℚ) := by exact_mod_cast h1
    have h3 : (1 : ℚ) / 2 ≤ |(z : ℚ) - x| := by
      rw [le_abs]
      left
      push_cast at h2
      unfold mathRound at h2
      linarith
    linarith

/-! ## Lemmas on binary64 rounding -/

theorem roundHalfEven_sub_le (x : ℚ) : |((roundHalfEven x : ℤ) : ℚ) - x| ≤ 1 / 2 := by
  have h1 := Int.floor_le x
  have h2 := Int.lt_floor_add_one x
  unfold roundHalfEven
  split_ifs with ha hb hc
  · rw [abs_le]; constructor <;> linarith
  · rw [abs_le]; push_cast; constructor <;> linarith
  · rw [abs_le]; constructor <;> linarith
  · rw [abs_le]; push_cast; constructor <;> linarith

theorem roundHalfEven_intCast (z : ℤ) : roundHalfEven (z : ℚ) = z := by
  simp [roundHalfEven]

theorem binade_le {q : ℚ} {k : ℤ} (hq0 : q ≠ 0) (hk : -1021 ≤ k) (hq : |q| < 2 ^ k) :
    binade |q| ≤ k - 1 := by
  have hpos : 0 < |q| := abs_pos.2 hq0
  have hlog : Int.log 2 |q| < k := by
    rw [← Int.lt_zpow_iff_log_lt (by norm_num) hpos]
    simpa using hq
  unfold binade
  rw [max_le_iff]
  constructor <;> omega

theorem roundBinary64_zero : roundBinary64 0 = JSNum.fin 0 := by
  simp [roundBinary64, roundHalfEven]

theorem roundBinary64_near {q : ℚ} {k : ℤ} (hk1 : -1021 ≤ k) (hk2 : k ≤ 1023)
    (hq : |q| < 2 ^ k) :
    ∃ r : ℚ, roundBinary64 q = JSNum.fin r ∧ |r - q| ≤ 2 ^ (k - 54) := by
  by_cases hq0 : q = 0
  · subst hq0
    exact ⟨0, roundBinary64_zero, by simp; positivity⟩
  have he := binade_le hq0 hk1 hq
  set ulp : ℚ := 2 ^ (binade |q| - 52) with hulp
  have hulp_pos : 0 < ulp := by positivity
  have hulp_le : ulp ≤ 2 ^ (k - 53) :=
    zpow_le_zpow_right₀ (by norm_num) (by omega)
  have herr : |((roundHalfEven (q / ulp) : ℤ) : ℚ) * ulp - q| ≤ 2 ^ (k - 54) := by
    have h := roundHalfEven_sub_le (q / ulp)
    have hmul : ((roundHalfEven (q / ulp) : ℤ) : ℚ) * ulp - q
        = (((roundHalfEven (q / ulp) : ℤ) : ℚ) - q / ulp) * ulp := by
      field_simp
    rw [hmul, abs_mul, abs_of_pos hulp_pos]
    have h54 : (2 : ℚ) ^ (k - 54) = 1 / 2 * 2 ^ (k - 53) := by
      rw [show k - 53 = (k - 54) + 1 by ring, zpow_add_one₀ (by norm_num)]
      ring
    rw [h54]
    exact mul_le_mul h hulp_le hulp_pos.le (by norm_num)
  refine ⟨((roundHalfEven (q / ulp) : ℤ) : ℚ) * ulp, ?_, herr⟩
  have hsmall : ¬ (2 : ℚ) ^ 1024 ≤ |((roundHalfEven (q / ulp) : ℤ) : ℚ) * ulp| := by
    rw [not_le]
    have h1 : |((roundHalfEven (q / ulp) : ℤ) : ℚ) * ulp| ≤ |q| + 2 ^ (k - 54) := by
      have := abs_sub_abs_le_abs_sub (((roundHalfEven (q / ulp) : ℤ) : ℚ) * ulp) q
      linarith
    have h2 : (2 : ℚ) ^ (k - 54) ≤ 2 ^ k := zpow_le_zpow_right₀ (by norm_num) (by omega)
    have h3 : (2 : ℚ) ^ k + 2 ^ k = 2 ^ (k + 1) := by
      rw [zpow_add_one₀ (by norm_num)]; ring
    have h4 : (2 : ℚ) ^ (k + 1) ≤ 2 ^ (1024 : ℤ) := zpow_le_zpow_right₀ (by norm_num) (by omega)
    have h5 : (2 : ℚ) ^ (1024 : ℤ) = 2 ^ 1024 := zpow_ofNat 2 1024
    linarith
  simp only [roundBinary64, ← hulp, hsmall, if_false]


theorem roundBinary64_of_binade {q : ℚ} (e : ℤ) (h0 : 2 ^ e ≤ |q|) (h1 : |q| < 2 ^ (e + 1))
    (he : -1022 ≤ e) :
    roundBinary64 q
      = if 2 ^ 1024 ≤ |((roundHalfEven (q / 2 ^ (e - 52)) : ℤ) : ℚ) * 2 ^ (e - 52)| then
          (if 0 < q then JSNum.posInf else JSNum.negInf)
        else JSNum.fin (((roundHalfEven (q / 2 ^ (e - 52)) : ℤ) : ℚ) * 2 ^ (e - 52)) := by
  have hpos : 0 < |q| := lt_of_lt_of_le (by positivity) h0
  have hlog : Int.log 2 |q| = e := by
    apply le_antisymm
    · have : Int.log 2 |q| < e + 1 := by
        rw [← Int.lt_zpow_iff_log_lt (by norm_num) hpos]
        simpa using h1
      omega
    · rw [← Int.zpow_le_iff_le_log (by norm_num) hpos]
      simpa using h0
  have hb : binade |q| = e := by
    unfold binade
    rw [hlog]
    exact max_eq_left he
  simp only [roundBinary64, hb]

theorem roundBinary64_intCast (z : ℤ) (hz : |z| ≤ 2 ^ 53) : roundBinary64 (z : ℚ) = JSNum.fin z := by
  by_cases hz0 : z = 0
  · subst hz0
    simpa using roundBinary64_zero
  have hzq : (1 : ℚ) ≤ |(z : ℚ)| := by
    have : (1 : ℤ) ≤ |z| := Int.one_le_abs hz0
    exact_mod_cast this
  have hpos : 0 < |(z : ℚ)| := lt_of_lt_of_le one_pos hzq
  have hlog0 : 0 ≤ Int.log 2 |(z : ℚ)| := by
    rw [← Int.zpow_le_iff_le_log (by norm_num) hpos]
    simpa using hzq
  have hle : (2 : ℚ) ^ Int.log 2 |(z : ℚ)| ≤ |(z : ℚ)| := by
    simpa using Int.zpow_log_le_self (b := 2) (by norm_num) hpos
  have hzle : |(z : ℚ)| ≤ 2 ^ (53 : ℤ) := by
    rw [zpow_ofNat]
    exact_mod_cast hz
  have hlog53 : Int.log 2 |(z : ℚ)| ≤ 53 := by
    by_contra hcon
    have h54 : (54 : ℤ) ≤ Int.log 2 |(z : ℚ)| := by omega
    have : (2 : ℚ) ^ (54 : ℤ) ≤ |(z : ℚ)| :=
      le_trans (zpow_le_zpow_right₀ (by norm_num) h54) hle
    have hlt : (2 : ℚ) ^ (53 : ℤ) < 2 ^ (54 : ℤ) := by norm_num
    linarith
  have hb : binade |(z : ℚ)| = Int.log 2 |(z : ℚ)| := by
    unfold binade
    exact max_eq_left (by omega)
  obtain ⟨m, hm⟩ : ∃ m : ℤ, (z : ℚ) / 2 ^ (Int.log 2 |(z : ℚ)| - 52) = (m : ℚ) := by
    by_cases h52 : Int.log 2 |(z : ℚ)| ≤ 52
    · obtain ⟨n, hn⟩ : ∃ n : ℕ, (52 : ℤ) - Int.log 2 |(z : ℚ)| = n :=
        ⟨(52 - Int.log 2 |(z : ℚ)|).toNat, by omega⟩
      refine ⟨z * 2 ^ n, ?_⟩
      have hneg : Int.log 2 |(z : ℚ)| - 52 = -(n : ℤ) := by omega
      rw [hneg, zpow_neg, zpow_natCast, div_inv_eq_mul]
      push_cast
      ring
    · have h53 : Int.log 2 |(z : ℚ)| = 53 := by omega
      have habs : |(z : ℚ)| = 2 ^ (53 : ℤ) := by
        apply le_antisymm hzle
        rw [← h53]
        exact hle
      have habsz : |z| = 2 ^ 53 := by
        rw [zpow_ofNat] at habs
        exact_mod_cast habs
      rw [h53]
      rcases abs_eq (by positivity : (0 : ℤ) ≤ 2 ^ 53) |>.1 habsz with h | h
      · exact ⟨2 ^ 52, by rw [h]; norm_num⟩
      · exact ⟨-2 ^ 52, by rw [h]; norm_num⟩
  have hulp_pos : (0 : ℚ) < 2 ^ (Int.log 2 |(z : ℚ)| - 52) := by positivity
  have hr : ((roundHalfEven ((z : ℚ) / 2 ^ (Int.log 2 |(z : ℚ)| - 52)) : ℤ) : ℚ)
      * 2 ^ (Int.log 2 |(z : ℚ)| - 52) = z := by
    rw [hm, roundHalfEven_intCast, ← hm]
    field_simp
  have hsmall : ¬ (2 : ℚ) ^ 1024 ≤ |(z : ℚ)| := by
    rw [not_le]
    have : (2 : ℚ) ^ (53 : ℤ) < 2 ^ 1024 := by
      rw [zpow_ofNat]
      exact pow_lt_pow_right₀ (by norm_num) (by norm_num)
    linarith
  simp only [roundBinary64, hb, hr, hsmall, if_false]

theorem roundBinary64_natCast {n : ℕ} (hn : n ≤ 2 ^ 53) :
    roundBinary64 (n : ℚ) = JSNum.fin n := by
  have h := roundBinary64_intCast (n : ℤ) (by
    rw [abs_of_nonneg (by positivity)]
    exact_mod_cast hn)
  simpa using h

theorem bitLength_bounds (fuel : Nat) :
    ∀ n : Nat, n ≤ fuel → 0 < n →
      2 ^ (bitLength fuel n - 1) ≤ n ∧ n < 2 ^ bitLength fuel n ∧ 0 < bitLength fuel n := by
  induction fuel with
  | zero => intro n h hn; omega
  | succ fuel ih =>
    intro n h hn
    have hn0 : n ≠ 0 := by omega
    simp only [bitLength, hn0, if_false]
    by_cases h2 : n / 2 = 0
    · have h1 : n = 1 := by omega
      subst h1
      cases fuel <;> simp [bitLength]
    · obtain ⟨ha, hb, hc⟩ := ih (n / 2) (by omega) (by omega)
      refine ⟨?_, ?_, by omega⟩
      · rw [Nat.add_sub_cancel]
        have : 2 ^ bitLength fuel (n / 2) = 2 ^ (bitLength fuel (n / 2) - 1) * 2 := by
          rw [← pow_succ]
          congr 1
          omega
        omega
      · rw [pow_succ]
        omega

theorem roundNatBinary64_agrees (x : Nat) (hfin : ((roundNatBinary64 x : ℕ) : ℚ) < 2 ^ 1024) :
    roundBinary64 (x : ℚ) = JSNum.fin (roundNatBinary64 x) := by
  by_cases hb : bitLength x x ≤ 53
  · have hx : roundNatBinary64 x = x := by simp [roundNatBinary64, hb]
    rw [hx]
    by_cases hx0 : x = 0
    · subst hx0
      simpa using roundBinary64_zero
    · obtain ⟨_, hlt, _⟩ := bitLength_bounds x x le_rfl (by omega)
      have : x < 2 ^ 53 := lt_of_lt_of_le hlt (Nat.pow_le_pow_right (by norm_num) hb)
      exact roundBinary64_natCast this.le
  · have hb' : 53 < bitLength x x := by omega
    have hx0 : 0 < x := by
      rcases Nat.eq_zero_or_pos x with h | h
      · rw [h] at hb'
        simp [bitLength] at hb'
      · exact h
    obtain ⟨hlo, hhi, _⟩ := bitLength_bounds x x le_rfl hx0
    obtain ⟨s, hs⟩ : ∃ s : ℕ, bitLength x x = s + 54 := ⟨bitLength x x - 54, by omega⟩
    rw [hs] at hlo hhi
    have hlo' : 2 ^ (s + 53) ≤ x := by simpa using hlo
    have hunit : bitLength x x - 53 = s + 1 := by omega
    have hxq : |(x : ℚ)| = x := abs_of_nonneg (by positivity)
    have h0 : (2 : ℚ) ^ ((s : ℤ) + 53) ≤ |(x : ℚ)| := by
      rw [hxq]
      have : ((2 ^ (s + 53) : ℕ) : ℚ) ≤ x := by exact_mod_cast hlo'
      rw [show ((s : ℤ) + 53) = ((s + 53 : ℕ) : ℤ) by push_cast; ring, zpow_natCast]
      exact_mod_cast this
    have h1 : |(x : ℚ)| < (2 : ℚ) ^ ((s : ℤ) + 53 + 1) := by
      rw [hxq]
      have : (x : ℚ) < ((2 ^ (s + 54) : ℕ) : ℚ) := by exact_mod_cast hhi
      rw [show ((s : ℤ) + 53 + 1) = ((s + 54 : ℕ) : ℤ) by push_cast; ring, zpow_natCast]
      exact_mod_cast this
    rw [roundBinary64_of_binade ((s : ℤ) + 53) h0 h1 (by omega)]
    have hulp : (2 : ℚ) ^ ((s : ℤ) + 53 - 52) = ((2 ^ (s + 1) : ℕ) : ℚ) := by
      rw [show ((s : ℤ) + 53 - 52) = ((s + 1 : ℕ) : ℤ) by push_cast; ring, zpow_natCast]
      push_cast
      rfl
    rw [hulp]
    have hval : roundNatBinary64 x
        = (if 2 * (x % 2 ^ (s + 1)) < 2 ^ (s + 1) then x / 2 ^ (s + 1)
            else if 2 ^ (s + 1) < 2 * (x % 2 ^ (s + 1)) then x / 2 ^ (s + 1) + 1
            else if (x / 2 ^ (s + 1)) % 2 = 0 then x / 2 ^ (s + 1)
            else x / 2 ^ (s + 1) + 1) * 2 ^ (s + 1) := by
      simp only [roundNatBinary64, hb, if_false, hunit]
    generalize hu : 2 ^ (s + 1) = unit at hval ⊢
    have hupos : 0 < unit := by rw [← hu]; positivity
    have huq : (0 : ℚ) < unit := by exact_mod_cast hupos
    have hfloor : Int.floor ((x : ℚ) / unit) = ((x / unit : ℕ) : ℤ) := by
      rw [Rat.floor_natCast_div_natCast]
      exact (Int.natCast_div x unit).symm
    have hfrac : (x : ℚ) / unit - (((x / unit : ℕ) : ℤ) : ℚ) = ((x % unit : ℕ) : ℚ) / unit := by
      have hdm : x = unit * (x / unit) + x % unit := (Nat.div_add_mod x unit).symm
      have hdq : (x : ℚ) = unit * ((x / unit : ℕ) : ℚ) + ((x % unit : ℕ) : ℚ) := by
        exact_mod_cast hdm
      rw [Int.cast_natCast, eq_div_iff huq.ne', sub_mul, div_mul_cancel₀ _ huq.ne']
      linarith
    have hlt_iff : ((x % unit : ℕ) : ℚ) / unit < 1 / 2 ↔ 2 * (x % unit) < unit := by
      rw [div_lt_div_iff₀ huq (by norm_num)]
      constructor
      · intro h
        have : ((2 * (x % unit) : ℕ) : ℚ) < (unit : ℚ) := by push_cast; linarith
        exact_mod_cast this
      · intro h
        have : ((2 * (x % unit) : ℕ) : ℚ) < (unit : ℚ) := by exact_mod_cast h
        push_cast at this
        linarith
    have hgt_iff : 1 / 2 < ((x % unit : ℕ) : ℚ) / unit ↔ unit < 2 * (x % unit) := by
      rw [div_lt_div_iff₀ (by norm_num) huq]
      constructor
      · intro h
        have : (unit : ℚ) < ((2 * (x % unit) : ℕ) : ℚ) := by push_cast; linarith
        exact_mod_cast this
      · intro h
        have : (unit : ℚ) < ((2 * (x % unit) : ℕ) : ℚ) := by exact_mod_cast h
        push_cast at this
        linarith
    have hpar : (((x / unit : ℕ) : ℤ) % 2 = 0) ↔ (x / unit) % 2 = 0 := by omega
    have hround : roundHalfEven ((x : ℚ) / unit)
        = (((if 2 * (x % unit) < unit then x / unit else if unit < 2 * (x % unit) then x / unit + 1
            else if (x / unit) % 2 = 0 then x / unit else x / unit + 1 : ℕ)) : ℤ) := by
      unfold roundHalfEven
      rw [hfloor, hfrac]
      simp only [hlt_iff, hgt_iff, hpar]
      split_ifs <;> simp
    rw [hround]
    generalize hm : (if 2 * (x % unit) < unit then x / unit
        else if unit < 2 * (x % unit) then x / unit + 1
        else if (x / unit) % 2 = 0 then x / unit else x / unit + 1) = m at hval ⊢
    have hcast : (((m : ℕ) : ℤ) : ℚ) * (unit : ℚ) = ((roundNatBinary64 x : ℕ) : ℚ) := by
      rw [hval]
      push_cast
      rfl
    rw [hcast, abs_of_nonneg (Nat.cast_nonneg _), if_neg (not_le.2 hfin)]

/-! ## Trading journal -/

theorem foldl_jsAdd_exact (l : List ClosedTrade) :
    ∀ a : ℤ, (∀ t ∈ l, ∃ z : ℤ, t.result_dollars = z) →
      |(a : ℚ)| + (l.map (fun t => |t.result_dollars|)).sum ≤ 2 ^ 53 →
      l.foldl (fun sum trade => jsAdd sum (JSNum.fin trade.result_dollars)) (JSNum.fin a)
        = JSNum.fin (a + (l.map (fun t => t.result_dollars)).sum) := by
  induction l with
  | nil => intro a _ _; simp
  | cons t ts ih =>
    intro a hint hbound
    obtain ⟨z, hz⟩ := hint t (List.mem_cons_self _ _)
    simp only [List.map_cons, List.sum_cons] at hbound
    have hsum_nonneg : 0 ≤ (ts.map (fun t => |t.result_dollars|)).sum :=
      List.sum_nonneg (by
        intro x hx
        obtain ⟨u, _, rfl⟩ := List.mem_map.1 hx
        exact abs_nonneg _)
    have habs : |((a + z : ℤ) : ℚ)| ≤ |(a : ℚ)| + |t.result_dollars| := by
      rw [hz]
      push_cast
      exact abs_add _ _
    have hstep : jsAdd (JSNum.fin a) (JSNum.fin t.result_dollars) = JSNum.fin ((a + z : ℤ) : ℚ) := by
      have h53 : |a + z| ≤ 2 ^ 53 := by
        have : |((a + z : ℤ) : ℚ)| ≤ 2 ^ 53 := by linarith
        exact_mod_cast this
      have := roundBinary64_intCast (a + z) h53
      simp only [jsAdd, hz]
      rw [← this]
      push_cast
      rfl
    simp only [List.foldl_cons, hstep]
    rw [ih (a + z) (fun u hu => hint u (List.mem_cons_of_mem _ hu)) (by linarith)]
    simp only [List.map_cons, List.sum_cons, hz]
    push_cast
    ring_nf

theorem foldl_jsAdd_near {k : ℤ} (hk1 : -1021 ≤ k) (hk2 : k ≤ 1023) (l : List ClosedTrade) :
    ∀ a : ℚ,
      |a| + (l.map (fun t => |t.result_dollars|)).sum + l.length * 2 ^ (k - 54) < 2 ^ k →
      ∃ P : ℚ,
        l.foldl (fun sum trade => jsAdd sum (JSNum.fin trade.result_dollars)) (JSNum.fin a)
          = JSNum.fin P ∧
        |P - (a + (l.map (fun t => t.result_dollars)).sum)| ≤ l.length * 2 ^ (k - 54) := by
  have hε : (0 : ℚ) < 2 ^ (k - 54) := by positivity
  induction l with
  | nil => intro a _; exact ⟨a, by simp, by simp⟩
  | cons t ts ih =>
    intro a hbound
    simp only [List.map_cons, List.sum_cons, List.length_cons, Nat.cast_add, Nat.cast_one]
      at hbound
    have hsum_nonneg : 0 ≤ (ts.map (fun t => |t.result_dollars|)).sum :=
      List.sum_nonneg (by
        intro x hx
        obtain ⟨u, _, rfl⟩ := List.mem_map.1 hx
        exact abs_nonneg _)
    have hlen : (0 : ℚ) ≤ (ts.length : ℚ) * 2 ^ (k - 54) := by positivity
    have hlt : |a + t.result_dollars| < 2 ^ k := by
      have := abs_add a t.result_dollars
      nlinarith
    obtain ⟨a', ha', herr⟩ := roundBinary64_near hk1 hk2 hlt
    have habs' : |a'| ≤ |a| + |t.result_dollars| + 2 ^ (k - 54) := by
      have h1 := abs_sub_abs_le_abs_sub a' (a + t.result_dollars)
      have h2 := abs_add a t.result_dollars
      linarith
    obtain ⟨P, hP, hPerr⟩ := ih a' (by nlinarith)
    refine ⟨P, ?_, ?_⟩
    · have hstep : jsAdd (JSNum.fin a) (JSNum.fin t.result_dollars) = JSNum.fin a' := ha'
      rw [List.foldl_cons, hstep]
      exact hP
    · simp only [List.map_cons, List.sum_cons, List.length_cons, Nat.cast_add, Nat.cast_one]
      have h3 : P - (a + (t.result_dollars + (ts.map (fun t => t.result_dollars)).sum))
          = (P - (a' + (ts.map (fun t => t.result_dollars)).sum))
            + (a' - (a + t.result_dollars)) := by ring
      rw [h3]
      have h4 := abs_add (P - (a' + (ts.map (fun t => t.result_dollars)).sum))
        (a' - (a + t.result_dollars))
      linarith

theorem winRate_near (history : List ClosedTrade) (hne : history ≠ []) :
    ∃ p : ℚ, winRate history = JSNum.fin p ∧
      |p - 100 * (history.countP (fun t => decide (0 < t.result_dollars)) : ℚ)
          / (history.length : ℚ)| ≤ 1 / 2 ^ 45 := by
  have hlen : (history.length : ℚ) ≠ 0 := by simpa using hne
  have hlenpos : (0 : ℚ) < history.length := by
    have : 0 < history.length := List.length_pos.2 hne
    exact_mod_cast this
  have hcount : (history.filter (fun t => decide (t.result_dollars > 0))).length
      = history.countP (fun t => decide (0 < t.result_dollars)) := by
    rw [List.countP_eq_length_filter]
  have hle : (history.countP (fun t => decide (0 < t.result_dollars)) : ℚ) ≤ history.length := by
    exact_mod_cast List.countP_le_length _
  set w : ℚ := (history.countP (fun t => decide (0 < t.result_dollars)) : ℚ) with hw
  have hw0 : 0 ≤ w := by positivity
  have hq0 : 0 ≤ w / history.length := by positivity
  have hq1 : w / history.length ≤ 1 := (div_le_one hlenpos).2 hle
  have hqlt : |w / (history.length : ℚ)| < 2 ^ (1 : ℤ) := by
    rw [abs_of_nonneg hq0]
    norm_num
    linarith
  obtain ⟨d, hd, hderr⟩ := roundBinary64_near (k := 1) (by norm_num) (by norm_num) hqlt
  have hderr' : |d - w / history.length| ≤ 1 / 2 ^ 53 := by
    have h53 : (2 : ℚ) ^ ((1 : ℤ) - 54) = 1 / 2 ^ 53 := by
      rw [show (1 : ℤ) - 54 = -53 by norm_num, zpow_neg, zpow_ofNat, one_div]
    rw [← h53]
    exact hderr
  have hdabs : |d| ≤ 1 + 1 / 2 ^ 53 := by
    have h1 := abs_sub_abs_le_abs_sub d (w / history.length)
    rw [abs_of_nonneg hq0] at h1
    linarith
  have hplt : |d * 100| < 2 ^ (7 : ℤ) := by
    rw [abs_mul, abs_of_pos (by norm_num : (0 : ℚ) < 100)]
    have : (1 + 1 / 2 ^ 53 : ℚ) * 100 < 2 ^ (7 : ℤ) := by norm_num
    nlinarith
  obtain ⟨p, hp, hperr⟩ := roundBinary64_near (k := 7) (by norm_num) (by norm_num) hplt
  have hperr' : |p - d * 100| ≤ 1 / 2 ^ 47 := by
    have h47 : (2 : ℚ) ^ ((7 : ℤ) - 54) = 1 / 2 ^ 47 := by
      rw [show (7 : ℤ) - 54 = -47 by norm_num, zpow_neg, zpow_ofNat, one_div]
    rw [← h47]
    exact hperr
  refine ⟨p, ?_, ?_⟩
  · simp only [winRate, jsDiv, hlen, if_false, hcount, ← hw, hd, jsMul, hp, jsOr, JSNum.truthy]
    by_cases hz : p = 0
    · simp [hz]
    · simp [hz]
  · have hsplit : p - 100 * w / history.length
        = (p - d * 100) + 100 * (d - w / history.length) := by ring
    rw [hsplit]
    have h1 := abs_add (p - d * 100) (100 * (d - w / history.length))
    have h2 : |100 * (d - w / history.length)| = 100 * |d - w / history.length| := by
      rw [abs_mul, abs_of_pos (by norm_num : (0 : ℚ) < 100)]
    have h3 : (1 : ℚ) / 2 ^ 47 + 100 * (1 / 2 ^ 53) ≤ 1 / 2 ^ 45 := by norm_num
    linarith

theorem sum_intCast (l : List ClosedTrade) (hint : ∀ t ∈ l, ∃ z : ℤ, t.result_dollars = z) :
    ∃ Z : ℤ, (l.map (fun t => t.result_dollars)).sum = Z := by
  induction l with
  | nil => exact ⟨0, by simp⟩
  | cons t ts ih =>
    obtain ⟨z, hz⟩ := hint t (List.mem_cons_self _ _)
    obtain ⟨Z, hZ⟩ := ih (fun u hu => hint u (List.mem_cons_of_mem _ hu))
    exact ⟨z + Z, by simp [hz, hZ]⟩

theorem abs_sum_le (l : List ClosedTrade) :
    |(l.map (fun t => t.result_dollars)).sum| ≤ (l.map (fun t => |t.result_dollars|)).sum := by
  induction l with
  | nil => simp
  | cons t ts ih =>
    simp only [List.map_cons, List.sum_cons]
    exact le_trans (abs_add _ _) (by linarith)

theorem totalProfit_exact (history : List ClosedTrade)
    (hint : ∀ t ∈ history, ∃ z : ℤ, t.result_dollars = z)
    (hbound : (history.map (fun t => |t.result_dollars|)).sum ≤ 2 ^ 53) :
    totalProfit history = JSNum.fin (history.map (fun t => t.result_dollars)).sum := by
  have h := foldl_jsAdd_exact history 0 hint (by simpa using hbound)
  simpa [totalProfit] using h

theorem finalCapital_exact (history : List ClosedTrade)
    (hint : ∀ t ∈ history, ∃ z : ℤ, t.result_dollars = z)
    (hbound : (history.map (fun t => |t.result_dollars|)).sum ≤ 2 ^ 53 - 10000) :
    finalCapital history = JSNum.fin (10000 + (history.map (fun t => t.result_dollars)).sum) := by
  obtain ⟨Z, hZ⟩ := sum_intCast history hint
  have habs := abs_sum_le history
  rw [finalCapital, totalProfit_exact history hint (by linarith), hZ]
  have h53 : |(10000 + Z : ℤ)| ≤ 2 ^ 53 := by
    have h1 : |((10000 + Z : ℤ) : ℚ)| ≤ 2 ^ 53 := by
      push_cast
      rw [hZ] at habs
      have := abs_add (10000 : ℚ) Z
      rw [abs_of_pos (by norm_num : (0 : ℚ) < 10000)] at this
      linarith
    exact_mod_cast h1
  have h := roundBinary64_intCast (10000 + Z) h53
  show roundBinary64 (initialCapital + (Z : ℚ)) = _
  rw [initialCapital]
  push_cast at h
  exact h

theorem roundBinary64_half : roundBinary64 (1 / 2) = JSNum.fin (1 / 2) := by
  rw [roundBinary64_of_binade (-1) (by norm_num [abs_of_nonneg]) (by norm_num [abs_of_nonneg])
    (by norm_num)]
  norm_num [roundHalfEven, abs_of_nonneg]

theorem journal_example_values :
    totalProfit [⟨100⟩, ⟨-40⟩] = JSNum.fin 60 ∧ finalCapital [⟨100⟩, ⟨-40⟩] = JSNum.fin 10060 ∧
    winRate [⟨100⟩, ⟨-40⟩] = JSNum.fin 50 := by
  have hint : ∀ t ∈ ([⟨100⟩, ⟨-40⟩] : List ClosedTrade), ∃ z : ℤ, t.result_dollars = z := by
    intro t ht
    simp only [List.mem_cons, List.mem_singleton, List.not_mem_nil, or_false] at ht
    rcases ht with rfl | rfl
    · exact ⟨100, by norm_num⟩
    · exact ⟨-40, by norm_num⟩
  refine ⟨?_, ?_, ?_⟩
  · rw [totalProfit_exact _ hint (by norm_num [abs_of_nonneg, abs_of_neg])]
    norm_num
  · rw [finalCapital_exact _ hint (by norm_num [abs_of_nonneg, abs_of_neg])]
    norm_num
  · have h50 : roundBinary64 50 = JSNum.fin 50 := by
      simpa using roundBinary64_natCast (n := 50) (by norm_num)
    have hfilter : (([⟨100⟩, ⟨-40⟩] : List ClosedTrade).filter
        (fun t => decide (t.result_dollars > 0))).length = 1 := by
      norm_num [List.filter]
    simp only [winRate, hfilter, List.length_cons, List.length_nil]
    norm_num [jsDiv, roundBinary64_half, jsMul, h50, jsOr, JSNum.truthy]

theorem jsAdd_fin (a b : ℚ) : jsAdd (JSNum.fin a) (JSNum.fin b) = roundBinary64 (a + b) := rfl

theorem totalProfit_three (a b c : ℚ) :
    totalProfit [⟨a⟩, ⟨b⟩, ⟨c⟩]
      = jsAdd (jsAdd (jsAdd (JSNum.fin 0) (JSNum.fin a)) (JSNum.fin b)) (JSNum.fin c) := by
  simp only [totalProfit, List.foldl_cons, List.foldl_nil]

theorem winRate_history23of80 :
    winRate history23of80 = JSNum.fin (8092405580431359 / 2 ^ 48) := by
  have hfilter : (history23of80.filter (fun t => decide (t.result_dollars > 0))).length = 23 := by
    simp [history23of80, List.filter_append, List.filter_replicate]
  have hlen : history23of80.length = 80 := by simp [history23of80]
  have hq : roundBinary64 (23 / 80) = JSNum.fin (5179139571476070 / 2 ^ 54) := by
    rw [roundBinary64_of_binade (-2) (by norm_num [abs_of_nonneg]) (by norm_num [abs_of_nonneg])
      (by norm_num)]
    norm_num [roundHalfEven, abs_of_nonneg]
  have hp : roundBinary64 (5179139571476070 / 2 ^ 54 * 100)
      = JSNum.fin (8092405580431359 / 2 ^ 48) := by
    rw [roundBinary64_of_binade 4 (by norm_num [abs_of_nonneg]) (by norm_num [abs_of_nonneg])
      (by norm_num)]
    norm_num [roundHalfEven, abs_of_nonneg]
  simp only [winRate, hfilter, hlen]
  have hdiv : jsDiv ((23 : ℕ) : ℚ) ((80 : ℕ) : ℚ) = JSNum.fin (5179139571476070 / 2 ^ 54) := by
    rw [← hq]
    norm_num [jsDiv]
  rw [hdiv]
  simp only [jsMul, hp, jsOr, JSNum.truthy]
  norm_num

/-- C1, as stated, fails.  With 23 winners among 80 trades the win rate is the
binary64 value 28.749999999999996, not 100 * 23 / 80 = 28.75, and is shown as
28.7% where 28.75 would be shown as 28.8%.  For the history
`[1e16, 1, -1e16]` the net profit is 0, not the sum 1. -/
theorem journal_metrics_not_exact :
    (history23of80 ≠ [] ∧
      winRate history23of80
        ≠ JSNum.fin (100 * (history23of80.countP (fun t => decide (0 < t.result_dollars)) : ℚ)
            / (history23of80.length : ℚ)) ∧
      toFixed 1 (winRate history23of80) = "28.7" ∧
      toFixed 1 (JSNum.fin (100 * (history23of80.countP
        (fun t => decide (0 < t.result_dollars)) : ℚ) / (history23of80.length : ℚ))) = "28.8") ∧
    (totalProfit [⟨10 ^ 16⟩, ⟨1⟩, ⟨-10 ^ 16⟩] = JSNum.fin 0 ∧
      (([⟨10 ^ 16⟩, ⟨1⟩, ⟨-10 ^ 16⟩] : List ClosedTrade).map (fun t => t.result_dollars)).sum
        = 1) := by
  have hcount : history23of80.countP (fun t => decide (0 < t.result_dollars)) = 23 := by
    simp [history23of80, List.countP_append, List.countP_replicate]
  have hlen : history23of80.length = 80 := by simp [history23of80]
  refine ⟨⟨by simp [history23of80], ?_, ?_, ?_⟩, ?_, by norm_num⟩
  · rw [winRate_history23of80, hcount, hlen]
    intro h
    have := JSNum.fin.inj h
    norm_num at this
  · rw [winRate_history23of80]
    norm_num [toFixed, fixedScaled, abs_of_nonneg]
    decide
  · rw [hcount, hlen]
    norm_num [toFixed, fixedScaled, abs_of_nonneg]
    decide
  · have h1 : roundBinary64 (0 + 10 ^ 16) = JSNum.fin (10 ^ 16) := by
      rw [roundBinary64_of_binade 53 (by norm_num [abs_of_nonneg])
        (by norm_num [abs_of_nonneg]) (by norm_num)]
      norm_num [roundHalfEven, abs_of_nonneg]
    have h2 : roundBinary64 (10 ^ 16 + 1) = JSNum.fin (10 ^ 16) := by
      rw [roundBinary64_of_binade 53 (by norm_num [abs_of_nonneg])
        (by norm_num [abs_of_nonneg]) (by norm_num)]
      norm_num [roundHalfEven, abs_of_nonneg]
    have h3 : roundBinary64 (10 ^ 16 + -10 ^ 16) = JSNum.fin 0 := by
      rw [show (10 : ℚ) ^ 16 + -10 ^ 16 = 0 by norm_num]
      exact roundBinary64_zero
    rw [totalProfit_three, jsAdd_fin, h1, jsAdd_fin, h2, jsAdd_fin, h3]

/-- C1, amended to binary64 arithmetic.  For every non-empty history: the win
rate is finite and within `2 ^ -45` of 100 * (trades with a result above zero)
/ (trades); when the results are whole numbers whose absolute values total at
most `2 ^ 53 - 10000`, the net profit is the sum of the results and the final
capital is 10000 plus that sum; and whenever
`10000 + Σ|result| + (n + 1) * 2 ^ (k - 54) < 2 ^ k`, the net profit is within
`n * 2 ^ (k - 54)` of the sum and the final capital within
`(n + 1) * 2 ^ (k - 54)` of 10000 plus the sum.  For the history `[100, -40]`
the journal shows net profit 60, capital 10060 and win rate 50.0%. -/
theorem journal_metrics_binary64 :
    (∀ history : List ClosedTrade, history ≠ [] →
      (∃ p : ℚ, winRate history = JSNum.fin p ∧
        |p - 100 * (history.countP (fun t => decide (0 < t.result_dollars)) : ℚ)
            / (history.length : ℚ)| ≤ 1 / 2 ^ 45) ∧
      ((∀ t ∈ history, ∃ z : ℤ, t.result_dollars = z) →
        (history.map (fun t => |t.result_dollars|)).sum ≤ 2 ^ 53 - 10000 →
        totalProfit history = JSNum.fin (history.map (fun t => t.result_dollars)).sum ∧
        finalCapital history
          = JSNum.fin (10000 + (history.map (fun t => t.result_dollars)).sum)) ∧
      (∀ k : ℤ, -1021 ≤ k → k ≤ 1023 →
        10000 + (history.map (fun t => |t.result_dollars|)).sum
            + ((history.length : ℚ) + 1) * 2 ^ (k - 54) < 2 ^ k →
        ∃ P C : ℚ, totalProfit history = JSNum.fin P ∧ finalCapital history = JSNum.fin C ∧
          |P - (history.map (fun t => t.result_dollars)).sum|
            ≤ (history.length : ℚ) * 2 ^ (k - 54) ∧
          |C - (10000 + (history.map (fun t => t.result_dollars)).sum)|
            ≤ ((history.length : ℚ) + 1) * 2 ^ (k - 54))) ∧
    (totalProfit [⟨100⟩, ⟨-40⟩] = JSNum.fin 60 ∧
      finalCapital [⟨100⟩, ⟨-40⟩] = JSNum.fin 10060 ∧
      winRate [⟨100⟩, ⟨-40⟩] = JSNum.fin 50 ∧
      ∀ (page : Page) (status : Nat), statusOk status = true →
        (loadTradingJournal page (FetchResult.response status [⟨100⟩, ⟨-40⟩])).journalMetrics
          = [ "<h3>Métricas Clave (USD):</h3>",
              "<p>Capital Actual: <strong>$10060.00</strong></p>",
              "<p>Ganancias Netas: <strong>$60.00</strong></p>",
              "<p>% Trades Ganadores: <strong>50.0%</strong></p>",
              "<p>Total Operaciones Cerradas: 2</p>" ]) := by
  refine ⟨fun history hne => ⟨winRate_near history hne, ?_, ?_⟩,
    journal_example_values.1, journal_example_values.2.1, journal_example_values.2.2, ?_⟩
  · intro hint hbound
    exact ⟨totalProfit_exact history hint (by linarith), finalCapital_exact history hint hbound⟩
  · intro k hk1 hk2 hbound
    have hε : (0 : ℚ) < 2 ^ (k - 54) := by positivity
    have hsum_nonneg : 0 ≤ (history.map (fun t => |t.result_dollars|)).sum :=
      List.sum_nonneg (by
        intro x hx
        obtain ⟨u, _, rfl⟩ := List.mem_map.1 hx
        exact abs_nonneg _)
    have hlen0 : (0 : ℚ) ≤ history.length := by positivity
    obtain ⟨P, hP, hPerr⟩ := foldl_jsAdd_near hk1 hk2 history 0 (by
      rw [abs_zero]
      nlinarith)
    rw [zero_add] at hPerr
    have habsP : |P| ≤ (history.map (fun t => |t.result_dollars|)).sum
        + (history.length : ℚ) * 2 ^ (k - 54) := by
      have h1 := abs_sub_abs_le_abs_sub P (history.map (fun t => t.result_dollars)).sum
      have h2 := abs_sum_le history
      linarith
    have hlt : |10000 + P| < 2 ^ k := by
      have h1 := abs_add (10000 : ℚ) P
      rw [abs_of_pos (by norm_num : (0 : ℚ) < 10000)] at h1
      nlinarith
    obtain ⟨C, hC, hCerr⟩ := roundBinary64_near hk1 hk2 hlt
    refine ⟨P, C, hP, ?_, hPerr, ?_⟩
    · rw [finalCapital, show totalProfit history = JSNum.fin P from hP, initialCapital]
      exact hC
    · have hsplit : C - (10000 + (history.map (fun t => t.result_dollars)).sum)
          = (C - (10000 + P)) + (P - (history.map (fun t => t.result_dollars)).sum) := by ring
      rw [hsplit]
      have h1 := abs_add (C - (10000 + P)) (P - (history.map (fun t => t.result_dollars)).sum)
      linarith
  · intro page status hok
    have hv := journal_example_values
    simp only [loadTradingJournal, hok, journalMetricsHtml, hv.1, hv.2.1, hv.2.2]
    norm_num [toFixed, fixedScaled]
    decide

/-- Witness of the amended C1 on the history `[100, -40]`. -/
theorem journal_metrics_binary64_witness :
    ([⟨100⟩, ⟨-40⟩] : List ClosedTrade) ≠ [] ∧
    (∀ t ∈ ([⟨100⟩, ⟨-40⟩] : List ClosedTrade), ∃ z : ℤ, t.result_dollars = z) ∧
    (([⟨100⟩, ⟨-40⟩] : List ClosedTrade).map (fun t => |t.result_dollars|)).sum
      ≤ 2 ^ 53 - 10000 ∧
    totalProfit [⟨100⟩, ⟨-40⟩]
      = JSNum.fin (([⟨100⟩, ⟨-40⟩] : List ClosedTrade).map (fun t => t.result_dollars)).sum ∧
    finalCapital [⟨100⟩, ⟨-40⟩]
      = JSNum.fin (10000
          + (([⟨100⟩, ⟨-40⟩] : List ClosedTrade).map (fun t => t.result_dollars)).sum) :=
  have hint : ∀ t ∈ ([⟨100⟩, ⟨-40⟩] : List ClosedTrade), ∃ z : ℤ, t.result_dollars = z := by
    intro t ht
    simp only [List.mem_cons, List.mem_singleton, List.not_mem_nil, or_false] at ht
    rcases ht with rfl | rfl
    · exact ⟨100, by norm_num⟩
    · exact ⟨-40, by norm_num⟩
  have hbound : (([⟨100⟩, ⟨-40⟩] : List ClosedTrade).map (fun t => |t.result_dollars|)).sum
      ≤ 2 ^ 53 - 10000 := by
    norm_num [abs_of_nonneg, abs_of_neg]
  ⟨by simp, hint, hbound,
    ((journal_metrics_binary64.1 [⟨100⟩, ⟨-40⟩] (by simp)).2.1 hint hbound).1,
    ((journal_metrics_binary64.1 [⟨100⟩, ⟨-40⟩] (by simp)).2.1 hint hbound).2⟩

/-- C3: with no history entries the win rate is 0 (not NaN) and is shown as
0.0%, the net profit is 0 and the final capital is 10000. -/
theorem journal_empty_history :
    winRate [] = JSNum.fin 0 ∧ totalProfit [] = JSNum.fin 0 ∧
    finalCapital [] = JSNum.fin 10000 ∧
    ∀ (page : Page) (status : Nat), statusOk status = true →
      (loadTradingJournal page (FetchResult.response status [])).journalMetrics
        = [ "<h3>Métricas Clave (USD):</h3>",
            "<p>Capital Actual: <strong>$10000.00</strong></p>",
            "<p>Ganancias Netas: <strong>$0.00</strong></p>",
            "<p>% Trades Ganadores: <strong>0.0%</strong></p>",
            "<p>Total Operaciones Cerradas: 0</p>" ] := by
  have hw : winRate [] = JSNum.fin 0 := by
    simp [winRate, jsDiv, jsMul, jsOr, JSNum.truthy]
  have hc : finalCapital [] = JSNum.fin 10000 := by
    have h := roundBinary64_natCast (n := 10000) (by norm_num)
    simp only [finalCapital, totalProfit, List.foldl_nil, jsAdd_fin, initialCapital, add_zero]
    simpa using h
  refine ⟨hw, rfl, hc, ?_⟩
  intro page status hok
  simp only [loadTradingJournal, hok, journalMetricsHtml, hw, hc]
  norm_num [totalProfit, toFixed, fixedScaled]
  decide

/-! ## Chart interval and symbol -/

theorem getProp_tvIntervalTable_none {key : String}
    (hKey : key ∉ tvIntervalTable.map Prod.fst) (hProto : key ∉ objectPrototypeKeys) :
    getProp tvIntervalTable key = none := by
  simp only [tvIntervalTable, List.map_cons, List.map_nil, List.mem_cons, List.mem_singleton,
    List.not_mem_nil, or_false, not_or] at hKey
  obtain ⟨h1, h2, h3, h4, h5, h6, h7⟩ := hKey
  have e1 : (key == "1m") = false := by simpa using h1
  have e2 : (key == "5m") = false := by simpa using h2
  have e3 : (key == "15m") = false := by simpa using h3
  have e4 : (key == "30m") = false := by simpa using h4
  have e5 : (key == "1h") = false := by simpa using h5
  have e6 : (key == "4h") = false := by simpa using h6
  have e7 : (key == "1d") = false := by simpa using h7
  simp [getProp, tvIntervalTable, List.lookup, e1, e2, e3, e4, e5, e6, e7, hProto]

/-- C4, as stated, fails: `'4H'` is not a key of the table, yet its interval is
`'240'`, because the key is lower-cased before the lookup.  (A second kind of
input, `'constructor'`, is not a key either and reads a member inherited from
`Object.prototype` instead of the default.) -/
theorem tvInterval_not_default_for_4H :
    ("4H" ∉ tvIntervalTable.map Prod.fst ∧
      (updateTradingViewChart "SPY" "4H").interval = JSProp.str "240" ∧
      (updateTradingViewChart "SPY" "4H").interval ≠ JSProp.str "60") ∧
    ("constructor" ∉ tvIntervalTable.map Prod.fst ∧
      (updateTradingViewChart "SPY" "constructor").interval = JSProp.inherited "constructor" ∧
      (updateTradingViewChart "SPY" "constructor").interval ≠ JSProp.str "60") := by
  decide

/-- C4, amended: for every timeframe string whose lower-case form is neither a
key of the lookup table nor a name inherited from `Object.prototype`, the chart
interval is `'60'`. -/
theorem tvInterval_default (symbol tf : String)
    (hKey : toLowerCase tf ∉ tvIntervalTable.map Prod.fst)
    (hProto : toLowerCase tf ∉ objectPrototypeKeys) :
    (updateTradingViewChart symbol tf).interval = JSProp.str "60" := by
  simp [updateTradingViewChart, tvInterval, getProp_tvIntervalTable_none hKey hProto]

/-- Witness of the amended C4 at the timeframe `'2H'`. -/
theorem tvInterval_default_witness :
    toLowerCase "2H" ∉ tvIntervalTable.map Prod.fst ∧
    toLowerCase "2H" ∉ objectPrototypeKeys ∧
    (updateTradingViewChart "SPY" "2H").interval = JSProp.str "60" :=
  ⟨by decide, by decide, tvInterval_default "SPY" "2H" (by decide) (by decide)⟩

theorem includesChars_singleton (c : Char) (s : List Char) :
    includesChars s [c] = true ↔ c ∈ s := by
  induction s with
  | nil => simp [includesChars]
  | cons x xs ih =>
    simp only [includesChars, startsWithChars, Bool.or_eq_true, Bool.and_eq_true, beq_iff_eq,
      ih, List.mem_cons]
    cases xs <;> simp [startsWithChars, eq_comm]

theorem includes_colon (s : String) : includes s ":" = true ↔ ':' ∈ s.toList := by
  have h : (":" : String).toList = [':'] := rfl
  rw [includes, h, includesChars_singleton]

theorem mem_of_startsWithChars {s p : List Char} (h : startsWithChars s p = true) :
    ∀ c ∈ p, c ∈ s := by
  induction p generalizing s with
  | nil => simp
  | cons d ds ih =>
    cases s with
    | nil => simp [startsWithChars] at h
    | cons x xs =>
      simp only [startsWithChars, Bool.and_eq_true, beq_iff_eq] at h
      intro c hc
      rcases List.mem_cons.1 hc with rfl | hc
      · simp [h.1]
      · exact List.mem_cons_of_mem _ (ih h.2 c hc)

theorem occurrences_eq_zero {s p : List Char} {c : Char} (hp : c ∈ p) (hs : c ∉ s) :
    occurrences s p = 0 := by
  induction s with
  | nil =>
    cases p with
    | nil => simp at hp
    | cons d ds => simp [occurrences]
  | cons x xs ih =>
    have hstart : startsWithChars (x :: xs) p = false := by
      by_contra hcon
      exact hs (mem_of_startsWithChars (by simpa using hcon) c hp)
    have hxs : c ∉ xs := fun h => hs (List.mem_cons_of_mem _ h)
    simp [occurrences, hstart, ih hxs]

/-- C5: a symbol without `:` becomes `NASDAQ:` followed by the symbol, and the
venue text `NASDAQ:` occurs in the result exactly once; a symbol with `:` is
left unchanged; applying the rule to its own output changes nothing. -/
theorem tvSymbol_venue_once (symbol tf : String) :
    (':' ∉ symbol.toList →
      (updateTradingViewChart symbol tf).symbol = "NASDAQ:" ++ symbol ∧
      occurrences (updateTradingViewChart symbol tf).symbol.toList "NASDAQ:".toList = 1) ∧
    (':' ∈ symbol.toList → (updateTradingViewChart symbol tf).symbol = symbol) ∧
    (updateTradingViewChart (updateTradingViewChart symbol tf).symbol tf).symbol
      = (updateTradingViewChart symbol tf).symbol := by
  have hno : ':' ∉ symbol.toList → tvSymbol symbol = "NASDAQ:" ++ symbol := by
    intro h
    have : includes symbol ":" = false := by
      rw [← Bool.not_eq_true, includes_colon]; exact h
    simp [tvSymbol, this]
  have hyes : ∀ t : String, ':' ∈ t.toList → tvSymbol t = t := by
    intro t h
    simp [tvSymbol, (includes_colon t).2 h]
  refine ⟨fun h => ⟨hno h, ?_⟩, fun h => hyes symbol h, ?_⟩
  · have hz : occurrences symbol.toList ['N', 'A', 'S', 'D', 'A', 'Q', ':'] = 0 :=
      occurrences_eq_zero (c := ':') (by simp) h
    simp only [updateTradingViewChart, hno h, String.toList, String.data_append]
    simp only [String.toList] at hz
    simp [occurrences, startsWithChars, hz]
  · by_cases h : ':' ∈ symbol.toList
    · simp only [updateTradingViewChart, hyes symbol h]
    · simp only [updateTradingViewChart, hno h]
      apply hyes
      simp [String.toList, String.data_append]

/-- Witness of C5 on `SPY` (no colon) and `BINANCE:BTCUSDT` (with a colon). -/
theorem tvSymbol_venue_once_witness :
    ':' ∉ ("SPY" : String).toList ∧
    (updateTradingViewChart "SPY" "1h").symbol = "NASDAQ:SPY" ∧
    occurrences (updateTradingViewChart "SPY" "1h").symbol.toList "NASDAQ:".toList = 1 ∧
    ':' ∈ ("BINANCE:BTCUSDT" : String).toList ∧
    (updateTradingViewChart "BINANCE:BTCUSDT" "1h").symbol = "BINANCE:BTCUSDT" :=
  ⟨by decide,
    ((tvSymbol_venue_once "SPY" "1h").1 (by decide)).1.trans (by decide),
    ((tvSymbol_venue_once "SPY" "1h").1 (by decide)).2,
    by decide,
    (tvSymbol_venue_once "BINANCE:BTCUSDT" "1h").2.1 (by decide)⟩

/-! ## Signal card -/

theorem toFixed_two_of_lt {v : ℚ} (h : |v| < 10 ^ 21) :
    toFixed 2 (JSNum.fin v)
      = String.mk ((if v < 0 then ['-'] else []) ++
          (decimal (fixedScaled 2 |v| / 100) ++
            ['.', digitChar (fixedScaled 2 |v| / 10 % 10), digitChar (fixedScaled 2 |v| % 10)])) := by
  simp only [toFixed, not_le.2 h, if_false, fixedText_two]

theorem isTwoDecimalBody_fixed (n : Nat) :
    isTwoDecimalBody
      (decimal (n / 100) ++ ['.', digitChar (n / 10 % 10), digitChar (n % 10)]) = true := by
  have hpos := decimal_length_pos (n / 100)
  have hall := decimal_all_isDigit (n / 100)
  generalize hb : decimal (n / 100) ++ ['.', digitChar (n / 10 % 10), digitChar (n % 10)] = body
  have hl : body.length = (decimal (n / 100)).length + 3 := by simp [← hb]
  have h3 : body.length - 3 = (decimal (n / 100)).length := by omega
  have h2 : body.length - 2 = (decimal (n / 100)).length + 1 := by omega
  have e1 : body.take (decimal (n / 100)).length = decimal (n / 100) := by
    rw [← hb, List.take_left]
  have e2 : body.drop (decimal (n / 100)).length
      = ['.', digitChar (n / 10 % 10), digitChar (n % 10)] := by
    rw [← hb, List.drop_left]
  have e3 : body.drop ((decimal (n / 100)).length + 1)
      = [digitChar (n / 10 % 10), digitChar (n % 10)] := by
    rw [← List.drop_drop, e2]
    rfl
  unfold isTwoDecimalBody
  rw [h3, h2, e1, e2, e3]
  simp [hall, digitChar_isDigit]
  omega

theorem dropMinus_decimal_append (n : Nat) (rest : List Char) :
    dropMinus (decimal n ++ rest) = decimal n ++ rest := by
  have hpos := decimal_length_pos n
  have hd := decimal_all_isDigit n
  cases hdec : decimal n with
  | nil => rw [hdec] at hpos; simp at hpos
  | cons c cs =>
    rw [hdec] at hd
    have hc : c.isDigit = true := by
      simp only [List.all_cons, Bool.and_eq_true] at hd
      exact hd.1
    have hne : c ≠ '-' := by
      intro h
      rw [h] at hc
      exact absurd hc (by decide)
    simp only [List.cons_append]
    unfold dropMinus
    split
    · rename_i heq
      simp only [List.cons.injEq] at heq
      exact absurd heq.1 hne
    · rfl

theorem isTwoDecimalText_fixed (neg : Bool) (n : Nat) :
    isTwoDecimalText ((if neg then ['-'] else []) ++
      (decimal (n / 100) ++ ['.', digitChar (n / 10 % 10), digitChar (n % 10)])) = true := by
  cases neg with
  | true =>
    simp only [if_true, List.singleton_append, isTwoDecimalText, dropMinus]
    exact isTwoDecimalBody_fixed n
  | false =>
    simp only [Bool.false_eq_true, if_false, List.nil_append, isTwoDecimalText,
      dropMinus_decimal_append]
    exact isTwoDecimalBody_fixed n

/-- C6, as stated, fails: the stop-loss `1e21` is not zero, yet its text is
`$1e+21`, which has no decimal digits at all. -/
theorem renderSignal_stop_loss_1e21 :
    (renderSignal ⟨"LONG", 1 / 2, 10 ^ 21, 0, ""⟩ "SPY" "1h").1.stopLoss = "$1e+21" ∧
    isTwoDecimalCurrency (renderSignal ⟨"LONG", 1 / 2, 10 ^ 21, 0, ""⟩ "SPY" "1h").1.stopLoss
      = false := by
  decide

/-- C6, amended: the stop-loss text depends on the stop-loss alone and the
take-profit text on the take-profit alone; a zero level is shown as `N/A`, and
a non-zero level of magnitude below `10 ^ 21` is shown as `$` followed by the
level written with exactly two decimal digits, that is by `n / 100` for the
integer `n` nearest to 100 times the magnitude. -/
theorem renderSignal_levels (data : SignalData) (symbol tf : String) :
    ((renderSignal data symbol tf).1.stopLoss = renderLevel data.stop_loss ∧
      (renderSignal data symbol tf).1.takeProfit = renderLevel data.take_profit) ∧
    renderLevel 0 = "N/A" ∧
    ∀ v : ℚ, v ≠ 0 → |v| < 10 ^ 21 →
      ∃ n : ℕ, |(n : ℚ) / 100 - abs v| ≤ 1 / 200 ∧
        renderLevel v
          = "$" ++ String.mk ((if v < 0 then ['-'] else []) ++
              (decimal (n / 100) ++ ['.', digitChar (n / 10 % 10), digitChar (n % 10)])) ∧
        isTwoDecimalCurrency (renderLevel v) = true := by
  refine ⟨⟨rfl, rfl⟩, by simp [renderLevel], ?_⟩
  intro v hv hlt
  refine ⟨fixedScaled 2 |v|, ?_, ?_, ?_⟩
  · have := fixedScaled_nearest 2 (abs_nonneg v)
    norm_num at this ⊢
    exact this
  · simp only [renderLevel, hv, if_false, toFixed_two_of_lt hlt]
  · simp only [renderLevel, hv, if_false, toFixed_two_of_lt hlt]
    have hshape := isTwoDecimalText_fixed (decide (v < 0)) (fixedScaled 2 |v|)
    have hd : ("$" ++ String.mk ((if v < 0 then ['-'] else []) ++
        (decimal (fixedScaled 2 |v| / 100) ++
          ['.', digitChar (fixedScaled 2 |v| / 10 % 10),
            digitChar (fixedScaled 2 |v| % 10)]))).toList
        = '$' :: ((if v < 0 then ['-'] else []) ++
        (decimal (fixedScaled 2 |v| / 100) ++
          ['.', digitChar (fixedScaled 2 |v| / 10 % 10),
            digitChar (fixedScaled 2 |v| % 10)])) := by
      simp [String.toList, String.data_append]
    unfold isTwoDecimalCurrency
    rw [hd]
    simpa using hshape

/-- Witness of the amended C6: the level 123.456 is shown as `$123.46`. -/
theorem renderSignal_levels_witness :
    (123456 / 1000 : ℚ) ≠ 0 ∧ |(123456 / 1000 : ℚ)| < 10 ^ 21 ∧
    ∃ n : ℕ, |(n : ℚ) / 100 - abs (123456 / 1000 : ℚ)| ≤ 1 / 200 ∧
      renderLevel (123456 / 1000)
        = "$" ++ String.mk ((if (123456 / 1000 : ℚ) < 0 then ['-'] else []) ++
            (decimal (n / 100) ++ ['.', digitChar (n / 10 % 10), digitChar (n % 10)])) ∧
      isTwoDecimalCurrency (renderLevel (123456 / 1000)) = true :=
  ⟨by norm_num, by norm_num [abs_of_nonneg],
    (renderSignal_levels ⟨"LONG", 1 / 2, 123456 / 1000, 0, ""⟩ "SPY" "1h").2.2
      (123456 / 1000) (by norm_num) (by norm_num [abs_of_nonneg])⟩

theorem renderSignal_confidence_text (data : SignalData) (symbol tf : String) :
    (renderSignal data symbol tf).1.confidence
      = roundedText (jsMul (JSNum.fin data.confidence) 100) ++ "%" := rfl

theorem roundedText_fin (p : ℚ) : roundedText (JSNum.fin p) = intToString (mathRound p) := rfl

theorem jsMul_confidence08734 :
    jsMul (JSNum.fin confidence08734) 100 = JSNum.fin (6146006116477173 / 2 ^ 46) := by
  show roundBinary64 (confidence08734 * 100) = _
  rw [roundBinary64_of_binade 6 (by norm_num [confidence08734, abs_of_nonneg])
    (by norm_num [confidence08734, abs_of_nonneg]) (by norm_num)]
  norm_num [confidence08734, roundHalfEven, abs_of_nonneg]

theorem jsMul_confidenceBelow0675 :
    jsMul (JSNum.fin confidenceBelow0675) 100 = JSNum.fin (135 / 2) := by
  show roundBinary64 (confidenceBelow0675 * 100) = _
  rw [roundBinary64_of_binade 6 (by norm_num [confidenceBelow0675, abs_of_nonneg])
    (by norm_num [confidenceBelow0675, abs_of_nonneg]) (by norm_num)]
  norm_num [confidenceBelow0675, roundHalfEven, abs_of_nonneg]

/-- C10, as stated, fails: for the confidence 0.6749999999999999 the binary64
product `confidence * 100` is 67.5 and the card shows `68%`, although 67 is
nearer to 100 times the confidence than 68 is. -/
theorem renderSignal_confidence_rounds_product :
    (renderSignal ⟨"LONG", confidenceBelow0675, 0, 0, ""⟩ "SPY" "1h").1.confidence = "68%" ∧
    |((67 : ℤ) : ℚ) - confidenceBelow0675 * 100| < |((68 : ℤ) : ℚ) - confidenceBelow0675 * 100| := by
  constructor
  · have hr : mathRound (135 / 2) = 68 := by norm_num [mathRound]
    simp only [renderSignal, renderConfidence, jsMul_confidenceBelow0675, roundedText, hr]
    decide
  · norm_num [confidenceBelow0675, abs_lt, abs_of_nonneg, abs_of_neg]

/-- C10, amended: whenever the binary64 product `confidence * 100` is a finite
number `p`, the confidence is shown as the integer nearest to `p` (a half goes
up) followed by `%`, in plain decimal digits when that integer is below
`10 ^ 21` in magnitude; for a confidence between 0 and 1 the product is finite
and within `2 ^ -47` of 100 times the confidence; and the confidence 0.8734 is
shown as `87%`. -/
theorem renderSignal_confidence_binary64 (data : SignalData) (symbol tf : String) (p : ℚ)
    (hp : jsMul (JSNum.fin data.confidence) 100 = JSNum.fin p) :
    (∀ z : ℤ, |((mathRound p : ℤ) : ℚ) - p| ≤ |(z : ℚ) - p|) ∧
    (((mathRound p : ℤ) : ℚ) ≤ p + 1 / 2 ∧ p + 1 / 2 < ((mathRound p : ℤ) : ℚ) + 1) ∧
    (renderSignal data symbol tf).1.confidence = intToString (mathRound p) ++ "%" ∧
    ((mathRound p).natAbs < 10 ^ 21 →
      (renderSignal data symbol tf).1.confidence
        = String.mk ((if mathRound p < 0 then ['-'] else []) ++ decimal (mathRound p).natAbs)
          ++ "%") ∧
    (∀ c : ℚ, 0 ≤ c → c ≤ 1 →
      ∃ q : ℚ, jsMul (JSNum.fin c) 100 = JSNum.fin q ∧ |q - 100 * c| ≤ 1 / 2 ^ 47) ∧
    (roundBinary64 (8734 / 10000) = JSNum.fin confidence08734 ∧
      (renderSignal { data with confidence := confidence08734 } symbol tf).1.confidence
        = "87%") := by
  have htext : (renderSignal data symbol tf).1.confidence = intToString (mathRound p) ++ "%" := by
    simp only [renderSignal, renderConfidence, hp, roundedText]
  refine ⟨fun z => mathRound_nearest _ z,
    ⟨Int.floor_le (p + 1 / 2), Int.lt_floor_add_one (p + 1 / 2)⟩, htext, ?_, ?_, ?_, ?_⟩
  · intro h
    rw [htext]
    unfold intToString
    rw [natToString_of_lt h]
    split <;> simp
  · intro c hc0 hc1
    have hlt : |c * 100| < 2 ^ (7 : ℤ) := by
      rw [abs_of_nonneg (by positivity)]
      norm_num
      linarith
    obtain ⟨q, hq, hqerr⟩ := roundBinary64_near (k := 7) (by norm_num) (by norm_num) hlt
    refine ⟨q, hq, ?_⟩
    have h47 : (2 : ℚ) ^ ((7 : ℤ) - 54) = 1 / 2 ^ 47 := by
      rw [show (7 : ℤ) - 54 = -47 by norm_num, zpow_neg, zpow_ofNat, one_div]
    rw [← h47, mul_comm]
    exact hqerr
  · rw [roundBinary64_of_binade (-1) (by norm_num [abs_of_nonneg]) (by norm_num [abs_of_nonneg])
      (by norm_num)]
    norm_num [confidence08734, roundHalfEven, abs_of_nonneg]
  · have hr : mathRound (6146006116477173 / 2 ^ 46) = 87 := by norm_num [mathRound]
    have hproj : ({ data with confidence := confidence08734 } : SignalData).confidence
        = confidence08734 := rfl
    rw [renderSignal_confidence_text, hproj, jsMul_confidence08734, roundedText_fin, hr]
    decide

/-- Witness of the amended C10 at the confidence 0.8734, whose binary64 product
with 100 is 87.33999999999999. -/
theorem renderSignal_confidence_binary64_witness :
    jsMul (JSNum.fin (⟨"LONG", confidence08734, 0, 0, ""⟩ : SignalData).confidence) 100
      = JSNum.fin (6146006116477173 / 2 ^ 46) ∧
    (renderSignal ⟨"LONG", confidence08734, 0, 0, ""⟩ "SPY" "1h").1.confidence
      = intToString (mathRound (6146006116477173 / 2 ^ 46)) ++ "%" ∧
    (renderSignal ⟨"LONG", confidence08734, 0, 0, ""⟩ "SPY" "1h").1.confidence = "87%" :=
  ⟨jsMul_confidence08734,
    (renderSignal_confidence_binary64 ⟨"LONG", confidence08734, 0, 0, ""⟩ "SPY" "1h"
      (6146006116477173 / 2 ^ 46) jsMul_confidence08734).2.2.1,
    (renderSignal_confidence_binary64 ⟨"LONG", confidence08734, 0, 0, ""⟩ "SPY" "1h"
      (6146006116477173 / 2 ^ 46) jsMul_confidence08734).2.2.2.2.2.2⟩

/-! ## Dashboard list and asset filter -/

theorem stableSort_eq_insertionSort {α : Type} (le : α → α → Bool) (l : List α) :
    stableSort le l = List.insertionSort (fun a b => le a b = true) l := by
  have hins : ∀ (x : α) (t : List α),
      sortInsert le x t = List.orderedInsert (fun a b => le a b = true) x t := by
    intro x t
    induction t with
    | nil => rfl
    | cons y ys ih => simp [sortInsert, List.orderedInsert, ih]
  induction l with
  | nil => rfl
  | cons x xs ih =>
    have hfold : stableSort le (x :: xs) = sortInsert le x (stableSort le xs) := rfl
    rw [hfold, ih, hins, List.insertionSort]

theorem stableSort_perm {α : Type} (le : α → α → Bool) (l : List α) :
    (stableSort le l).Perm l := by
  rw [stableSort_eq_insertionSort]
  exact List.perm_insertionSort _ l

theorem stableSort_sorted {α : Type} (le : α → α → Bool)
    (htotal : ∀ a b, le a b = true ∨ le b a = true)
    (htrans : ∀ a b c, le a b = true → le b c = true → le a c = true) (l : List α) :
    (stableSort le l).Sorted (fun a b => le a b = true) := by
  rw [stableSort_eq_insertionSort]
  haveI : IsTotal α (fun a b => le a b = true) := ⟨htotal⟩
  haveI : IsTrans α (fun a b => le a b = true) := ⟨htrans⟩
  exact List.sorted_insertionSort _ l

theorem statusOk_ne_401 {status : Nat} (h : statusOk status = true) : status ≠ 401 := by
  simp only [statusOk, Bool.and_eq_true, decide_eq_true_eq] at h
  omega

/-- C7: after a successful fetch of `/radar_signals` the rendered signals are a
permutation of the fetched ones, each signal's confidence is at least that of
every signal after it, and the table has one row per signal. -/
theorem loadDashboard_sorted_by_confidence (page : Page) (status : Nat) (data : RadarData)
    (hok : statusOk status = true) :
    ((loadDashboard page (FetchResult.response status data)).dashboardRows.map
        (fun row => row.signal)).Perm data.signals ∧
    ((loadDashboard page (FetchResult.response status data)).dashboardRows.map
        (fun row => row.signal)).Sorted (fun a b => a.confidence ≥ b.confidence) ∧
    (loadDashboard page (FetchResult.response status data)).dashboardRows.length
      = data.signals.length := by
  have hrows : (loadDashboard page (FetchResult.response status data)).dashboardRows
      = renderDashboardTable (jsSortBy (fun a b => b.confidence - a.confidence) data.signals) := by
    simp [loadDashboard, statusOk_ne_401 hok, hok]
  have hmap : ∀ l : List Signal, (renderDashboardTable l).map (fun row => row.signal) = l := by
    intro l
    simp [renderDashboardTable, renderDashboardRow, Function.comp_def]
  rw [hrows, hmap]
  refine ⟨stableSort_perm _ _, ?_, ?_⟩
  · have hs := stableSort_sorted
      (fun a b : Signal => decide (b.confidence - a.confidence ≤ 0))
      (by
        intro a b
        simp only [decide_eq_true_eq, sub_nonpos]
        exact le_total _ _)
      (by
        intro a b c
        simp only [decide_eq_true_eq, sub_nonpos]
        exact fun h₁ h₂ => le_trans h₂ h₁)
      data.signals
    refine List.Pairwise.imp ?_ hs
    intro a b h
    simpa using h
  · simp only [renderDashboardTable, List.length_map]
    exact (stableSort_perm _ _).length_eq

theorem setValues_foldl (l : List String) :
    ∀ acc : List String, acc.Nodup →
      (l.foldl (fun acc x => if x ∈ acc then acc else acc ++ [x]) acc).Nodup ∧
      ∀ t, t ∈ l.foldl (fun acc x => if x ∈ acc then acc else acc ++ [x]) acc
        ↔ t ∈ acc ∨ t ∈ l := by
  induction l with
  | nil => intro acc h; simp [h]
  | cons x xs ih =>
    intro acc h
    simp only [List.foldl_cons]
    by_cases hx : x ∈ acc
    · simp only [hx, if_true]
      refine ⟨(ih acc h).1, fun t => ?_⟩
      rw [(ih acc h).2 t, List.mem_cons]
      constructor
      · rintro (h₁ | h₁)
        · exact Or.inl h₁
        · exact Or.inr (Or.inr h₁)
      · rintro (h₁ | h₁ | h₁)
        · exact Or.inl h₁
        · exact Or.inl (h₁ ▸ hx)
        · exact Or.inr h₁
    · simp only [hx, if_false]
      have hnd : (acc ++ [x]).Nodup := by
        rw [List.nodup_append]
        refine ⟨h, List.nodup_singleton x, ?_⟩
        intro a ha hb
        rw [List.mem_singleton] at hb
        exact hx (hb ▸ ha)
      refine ⟨(ih _ hnd).1, fun t => ?_⟩
      rw [(ih _ hnd).2 t, List.mem_append, List.mem_singleton, List.mem_cons]
      tauto

theorem setValues_nodup (l : List String) : (setValues l).Nodup :=
  (setValues_foldl l [] List.nodup_nil).1

theorem mem_setValues (l : List String) (t : String) : t ∈ setValues l ↔ t ∈ l := by
  have := (setValues_foldl l [] List.nodup_nil).2 t
  simpa [setValues] using this

/-- C8: the options after the fixed `ALL` option hold each asset type of the
signals exactly once and nothing else, in ascending order of their UTF-16 code
units. -/
theorem populateAssetFilter_distinct_sorted (signals : List Signal) :
    (populateAssetFilter signals).head? = some { value := "ALL", text := "Tipo: Todos" } ∧
    (∀ t : String, t ∈ (populateAssetFilter signals).tail.map (fun o => o.value)
      ↔ ∃ s ∈ signals, s.asset_type = t) ∧
    (∀ s ∈ signals,
      ((populateAssetFilter signals).tail.map (fun o => o.value)).count s.asset_type = 1) ∧
    ((populateAssetFilter signals).tail.map (fun o => o.value)).Sorted
      (fun a b => codeUnits a ≤ codeUnits b ∧ a ≠ b) := by
  have htail : (populateAssetFilter signals).tail.map (fun o => o.value) = assetTypes signals := by
    simp [populateAssetFilter, Function.comp_def]
  have hperm : (assetTypes signals).Perm (setValues (signals.map (fun s => s.asset_type))) :=
    stableSort_perm _ _
  have hnodup : (assetTypes signals).Nodup := hperm.nodup_iff.2 (setValues_nodup _)
  have hmem : ∀ t, t ∈ assetTypes signals ↔ ∃ s ∈ signals, s.asset_type = t := by
    intro t
    rw [hperm.mem_iff, mem_setValues, List.mem_map]
  rw [htail]
  refine ⟨rfl, hmem, ?_, ?_⟩
  · intro s hs
    exact List.count_eq_one_of_mem hnodup ((hmem _).2 ⟨s, hs, rfl⟩)
  · have hs := stableSort_sorted
      (fun a b : String => decide (codeUnits a ≤ codeUnits b))
      (by
        intro a b
        simp only [decide_eq_true_eq]
        exact le_total _ _)
      (by
        intro a b c
        simp only [decide_eq_true_eq]
        exact fun h₁ h₂ => le_trans h₁ h₂)
      (setValues (signals.map (fun s => s.asset_type)))
    have hs' : (assetTypes signals).Pairwise (fun a b => codeUnits a ≤ codeUnits b) := by
      refine List.Pairwise.imp ?_ hs
      intro a b h
      simpa using h
    exact List.Pairwise.and hs' hnodup

/-- Witness of C8 on the example response: `ETF` arrives first, `CRYPTO` is
listed first. -/
theorem populateAssetFilter_distinct_sorted_witness :
    populateAssetFilter exampleRadar.signals
      = [ { value := "ALL", text := "Tipo: Todos" },
          { value := "CRYPTO", text := "CRYPTO" },
          { value := "ETF", text := "ETF" } ] ∧
    ((populateAssetFilter exampleRadar.signals).tail.map (fun o => o.value)).Sorted
      (fun a b => codeUnits a ≤ codeUnits b ∧ a ≠ b) :=
  ⟨by decide, (populateAssetFilter_distinct_sorted exampleRadar.signals).2.2.2⟩

/-- Witness of C7 on a response whose two signals arrive in ascending
confidence: they are rendered in the opposite order. -/
theorem loadDashboard_sorted_by_confidence_witness :
    statusOk 200 = true ∧
    ((loadDashboard initialPage (FetchResult.response 200 exampleRadar)).dashboardRows.map
        (fun row => row.signal)).Perm exampleRadar.signals ∧
    ((loadDashboard initialPage (FetchResult.response 200 exampleRadar)).dashboardRows.map
        (fun row => row.signal)).Sorted (fun a b => a.confidence ≥ b.confidence) ∧
    (loadDashboard initialPage (FetchResult.response 200 exampleRadar)).dashboardRows.length
      = exampleRadar.signals.length ∧
    (loadDashboard initialPage (FetchResult.response 200 exampleRadar)).dashboardRows.map
        (fun row => row.signal.symbol) = ["BTCUSDT", "SPY"] := by
  have h := loadDashboard_sorted_by_confidence initialPage 200 exampleRadar (by decide)
  refine ⟨by decide, h.1, h.2.1, h.2.2, ?_⟩
  norm_num [loadDashboard, statusOk, jsSortBy, stableSort, sortInsert, exampleRadar,
    renderDashboardTable, renderDashboardRow]

/-! ## Closing a trade -/

theorem dropExpected_append (e r : List Char) : dropExpected e (e ++ r) = some r := by
  induction e with
  | nil => cases r <;> rfl
  | cons c cs ih => simp [dropExpected, ih]

theorem isPlainChar_ne {c : Char} (h : isPlainChar c = true) :
    c ≠ apostrophe ∧ c ≠ '"' ∧ c ≠ '\\' ∧ c ≠ '&' ∧ c ≠ '<' ∧ c ≠ '\n' ∧ c ≠ '\r'
      ∧ c ≠ Char.ofNat 0 := by
  refine ⟨?_, ?_, ?_, ?_, ?_, ?_, ?_, ?_⟩ <;>
    (intro hc; rw [hc] at h; exact absurd h (by decide))

theorem readLiteral_plain (v r : List Char) (hv : ∀ c ∈ v, isPlainChar c = true) :
    readLiteral (v ++ apostrophe :: r) = LiteralRead.closed v r := by
  induction v with
  | nil => simp [readLiteral]
  | cons c cs ih =>
    have hc := isPlainChar_ne (hv c (List.mem_cons_self _ _))
    have ih' := ih (fun d hd => hv d (List.mem_cons_of_mem _ hd))
    simp [readLiteral, hc.1, hc.2.2.1, hc.2.2.2.2.2.1, hc.2.2.2.2.2.2.1, ih']

theorem readStringArg_plain (v r : List Char) (hv : ∀ c ∈ v, isPlainChar c = true)
    (hr : r.head? ≠ some apostrophe) :
    readStringArg (apostrophe :: (v ++ apostrophe :: r)) = some (some (v, r)) := by
  simp [readStringArg, readLiteral_plain v r hv, hr]

theorem literalValue_150 : literalValue (150, 0) = JSNum.fin 150 := by
  have h := roundBinary64_natCast (n := 150) (by norm_num)
  simpa [literalValue] using h

theorem literalValue_1_5 : literalValue (15, 1) = JSNum.fin (3 / 2) := by
  show roundBinary64 (((15 : ℕ) : ℚ) / 10 ^ 1) = _
  rw [roundBinary64_of_binade 0 (by norm_num [abs_of_nonneg]) (by norm_num [abs_of_nonneg])
    (by norm_num)]
  norm_num [roundHalfEven, abs_of_nonneg]

theorem readOnclick_plain (tradeId symbol : String)
    (hid : plainText tradeId = true) (hsym : plainText symbol = true) :
    readOnclick ("closeTradeModal('" ++ tradeId ++ "', '" ++ symbol ++ "', 150, 1.5)")
      = Handler.call
          { tradeId := tradeId, symbol := symbol
            resultDollars := JSNum.fin 150, resultPercent := JSNum.fin (3 / 2) } := by
  have hidc : ∀ c ∈ tradeId.toList, isPlainChar c = true := by
    simpa [plainText, List.all_eq_true] using hid
  have hsymc : ∀ c ∈ symbol.toList, isPlainChar c = true := by
    simpa [plainText, List.all_eq_true] using hsym
  have htext : ("closeTradeModal('" ++ tradeId ++ "', '" ++ symbol ++ "', 150, 1.5)").toList
      = "closeTradeModal(".toList ++ (apostrophe :: (tradeId.toList ++ apostrophe ::
          ([',', ' '] ++ (apostrophe :: (symbol.toList ++ apostrophe ::
            [',', ' ', '1', '5', '0', ',', ' ', '1', '.', '5', ')']))))) := by
    have hA : ("closeTradeModal('" : String).data = "closeTradeModal(".toList ++ [apostrophe] := by
      decide
    have hB : ("', '" : String).data = [apostrophe, ',', ' ', apostrophe] := by decide
    have hC : ("', 150, 1.5)" : String).data
        = apostrophe :: [',', ' ', '1', '5', '0', ',', ' ', '1', '.', '5', ')'] := by decide
    simp only [String.toList, String.data_append, hA, hB, hC]
    simp [apostrophe]
  have hplain : ∀ d : Char, isPlainChar d = true →
      (!(d == '"' || d == '&' || d == '\r' || d == Char.ofNat 0)) = true := by
    intro d hd
    have := isPlainChar_ne hd
    simp [this.2.1, this.2.2.2.1, this.2.2.2.2.2.2.1, this.2.2.2.2.2.2.2]
  have hidall : tradeId.toList.all
      (fun c => !(c == '"' || c == '&' || c == '\r' || c == Char.ofNat 0)) = true :=
    List.all_eq_true.2 (fun c hc => hplain c (hidc c hc))
  have hsymall : symbol.toList.all
      (fun c => !(c == '"' || c == '&' || c == '\r' || c == Char.ofNat 0)) = true :=
    List.all_eq_true.2 (fun c hc => hplain c (hsymc c hc))
  have hsafe : (("closeTradeModal('" ++ tradeId ++ "', '" ++ symbol ++ "', 150, 1.5)").toList.all
      (fun c => !(c == '"' || c == '&' || c == '\r' || c == Char.ofNat 0))) = true := by
    rw [htext]
    simp only [List.all_append, List.all_cons, hidall, hsymall]
    decide
  have hargs : readNumberArgs [',', ' ', '1', '5', '0', ',', ' ', '1', '.', '5', ')']
      = some ((150, 0), (15, 1)) := by decide
  have h1 : readStringArg (apostrophe :: (tradeId.toList ++ apostrophe ::
      ([',', ' '] ++ (apostrophe :: (symbol.toList ++ apostrophe ::
        [',', ' ', '1', '5', '0', ',', ' ', '1', '.', '5', ')'])))))
      = some (some (tradeId.toList, [',', ' '] ++ (apostrophe :: (symbol.toList ++ apostrophe ::
        [',', ' ', '1', '5', '0', ',', ' ', '1', '.', '5', ')'])))) :=
    readStringArg_plain _ _ hidc (by simp [apostrophe])
  have h2 : readStringArg (apostrophe :: (symbol.toList ++ apostrophe ::
      [',', ' ', '1', '5', '0', ',', ' ', '1', '.', '5', ')']))
      = some (some (symbol.toList, [',', ' ', '1', '5', '0', ',', ' ', '1', '.', '5', ')'])) :=
    readStringArg_plain _ _ hsymc (by simp [apostrophe])
  unfold readOnclick
  rw [if_pos hsafe, htext, dropExpected_append]
  simp only [h1, dropExpected_append, h2, hargs, literalValue_150, literalValue_1_5]
  rfl

/-- C9, as stated, fails: for a trade whose id is `7'` the `onclick` text
`closeTradeModal('7'', 'SPY', 150, 1.5)` is not a program, so a click on the
close button sends nothing, whatever close price is entered. -/
theorem closeTradeModal_quote_in_id_sends_nothing :
    statusOk 200 = true ∧ quotedIdTrade ∈ [quotedIdTrade] ∧ ("505.5" : String) ≠ "" ∧
    (loadActiveTrades initialPage (FetchResult.response 200 [quotedIdTrade])).activeBody
      = ActiveBody.rows [renderActiveRow quotedIdTrade] ∧
    (renderActiveRow quotedIdTrade).closeOnclick = "closeTradeModal('7'', 'SPY', 150, 1.5)" ∧
    clickClose (some "Basic dTpw") (fun _ => JSNum.fin (1011 / 2)) "2024-01-03T09:00:00Z"
        (renderActiveRow quotedIdTrade) (some "505.5") (some "target hit") = some [] := by
  refine ⟨by decide, by simp, by decide, ?_, by decide, ?_⟩
  · have hsafe : [quotedIdTrade].all rowMarkupSafe = true := by decide
    simp only [loadActiveTrades, show statusOk 200 = true by decide, hsafe]
    simp
  · have hread : readOnclick (renderActiveRow quotedIdTrade).closeOnclick
        = Handler.syntaxError := by decide
    simp only [clickClose, hread]

/-- C9, amended: for a trade of a successful `/active_trades` response whose
interpolated strings contain neither `<` nor `"`, when the trade's id and symbol
consist of plain characters (no quote, backslash, `&`, `<`, line break or
U+0000) and the close price is non-empty, a click on the trade's close button
sends exactly one trade-close POST whose `result_dollars` and `result_percent`
are the values shown in the trade's row (the placeholders 150 and 1.5), whose
`trade_id` is the trade's id and whose `close_price` is the parsed price; an
empty or cancelled price sends nothing. -/
theorem closeTradeModal_reuses_displayed_pnl (page : Page) (status : Nat) (trades : List Trade)
    (authHeader : Option String) (parseFloat : String → JSNum) (now : String)
    (trade : Trade) (price : String) (comment : Option String)
    (hok : statusOk status = true) (hsafe : ∀ t ∈ trades, rowMarkupSafe t = true)
    (hmem : trade ∈ trades) (hid : plainText trade.id = true)
    (hsym : plainText trade.symbol = true) (hprice : price ≠ "") :
    (loadActiveTrades page (FetchResult.response status trades)).activeBody
      = ActiveBody.rows (trades.map renderActiveRow) ∧
    renderActiveRow trade ∈ trades.map renderActiveRow ∧
    (renderActiveRow trade).pnlDollars = 150 ∧
    (renderActiveRow trade).pnlPercent = 3 / 2 ∧
    clickClose authHeader parseFloat now (renderActiveRow trade) (some price) comment
      = some [Request.postCloseTrade authHeader
          { trade_id := trade.id
            close_price := parseFloat price
            close_time := now
            close_comment := comment
            result_dollars := JSNum.fin (renderActiveRow trade).pnlDollars
            result_percent := JSNum.fin (renderActiveRow trade).pnlPercent }] ∧
    clickClose authHeader parseFloat now (renderActiveRow trade) (some "") comment = some [] ∧
    clickClose authHeader parseFloat now (renderActiveRow trade) none comment = some [] := by
  have hne : trades.length ≠ 0 := by
    intro h
    rw [List.length_eq_zero] at h
    rw [h] at hmem
    exact absurd hmem (List.not_mem_nil _)
  have hall : trades.all rowMarkupSafe = true := List.all_eq_true.2 hsafe
  have hread : readOnclick (renderActiveRow trade).closeOnclick
      = Handler.call
          { tradeId := trade.id, symbol := trade.symbol
            resultDollars := JSNum.fin 150, resultPercent := JSNum.fin (3 / 2) } :=
    readOnclick_plain trade.id trade.symbol hid hsym
  refine ⟨?_, List.mem_map_of_mem _ hmem, rfl, rfl, ?_, ?_, ?_⟩
  · simp [loadActiveTrades, hok, hne, hall]
  · rw [clickClose, hread]
    simp [closeTradeModal, closeTradeAPI, hprice, renderActiveRow, pnlDollars, pnlPercent]
  · rw [clickClose, hread]
    simp [closeTradeModal]
  · rw [clickClose, hread]
    simp [closeTradeModal]

/-- Witness of the amended C9: closing the example trade at the entered price `505.5`. -/
theorem closeTradeModal_reuses_displayed_pnl_witness :
    statusOk 200 = true ∧ (∀ t ∈ [exampleTrade], rowMarkupSafe t = true) ∧
    exampleTrade ∈ [exampleTrade] ∧ plainText exampleTrade.id = true ∧
    plainText exampleTrade.symbol = true ∧ ("505.5" : String) ≠ "" ∧
    clickClose (some "Basic dTpw") (fun _ => JSNum.fin (1011 / 2)) "2024-01-03T09:00:00Z"
        (renderActiveRow exampleTrade) (some "505.5") (some "target hit")
      = some [Request.postCloseTrade (some "Basic dTpw")
          { trade_id := "7"
            close_price := JSNum.fin (1011 / 2)
            close_time := "2024-01-03T09:00:00Z"
            close_comment := some "target hit"
            result_dollars := JSNum.fin 150
            result_percent := JSNum.fin (3 / 2) }] :=
  have hsafe : ∀ t ∈ [exampleTrade], rowMarkupSafe t = true := by
    intro t ht
    rw [List.mem_singleton] at ht
    rw [ht]
    decide
  ⟨by decide, hsafe, by simp, by decide, by decide, by decide,
    (closeTradeModal_reuses_displayed_pnl initialPage 200 [exampleTrade] (some "Basic dTpw")
      (fun _ => JSNum.fin (1011 / 2)) "2024-01-03T09:00:00Z" exampleTrade "505.5"
      (some "target hit") (by decide) hsafe (by simp) (by decide) (by decide)
      (by decide)).2.2.2.2.1⟩

/-! ## Responses with status 401 -/

/-- C2 on the code: only `loadDashboard` replaces the page on a 401.  The other
three handlers leave `document.body` as it was and report an ordinary error in
their own panel or in an alert. -/
theorem unauthorized_replaces_page_only_in_loadDashboard (page : Page) (data : RadarData)
    (trades : List Trade) (history : List ClosedTrade) (symbol : String)
    (radar : FetchResult RadarData) (active : FetchResult (List Trade)) :
    (loadDashboard page (FetchResult.response 401 data)).body = some deniedHtml ∧
    ((loadActiveTrades page (FetchResult.response 401 trades)).body = page.body ∧
      (loadActiveTrades page (FetchResult.response 401 trades)).activeStatus
        = "❌ Error: Fallo al obtener trades activos.") ∧
    ((loadTradingJournal page (FetchResult.response 401 history)).body = page.body ∧
      (loadTradingJournal page (FetchResult.response 401 history)).journalMetrics
        = ["❌ Error: Fallo al obtener historial."]) ∧
    ((confirmAndOpenTrade page symbol (FetchResult.response 401 ()) radar active).body
        = page.body ∧
      (confirmAndOpenTrade page symbol (FetchResult.response 401 ()) radar active).alerts
        = page.alerts ++ ["❌ Fallo al registrar trade: Error al abrir el trade."]) := by
  have h401 : statusOk 401 = false := by decide
  refine ⟨?_, ⟨?_, ?_⟩, ⟨?_, ?_⟩, ⟨?_, ?_⟩⟩ <;>
    simp [loadDashboard, loadActiveTrades, loadTradingJournal, confirmAndOpenTrade, h401]

end Skiboss
